import Mathlib

/-!
A shallow embedding of the game logic of nc_2048 (`src/logic.c`,
`src/nc_2048.h`, `src/nc_2048.c`) and proofs about it.

Boards are 4×4 grids of C `int` tiles, embedded as `List (List Int)`
(rows of cells); the global score is an `Int`.  The four push functions
`left`, `right`, `up`, `down` of `logic.c` mutate the board in place,
one row (for `left`/`right`) or one column (for `up`/`down`) at a time:
all array accesses inside the per-line loop body fix the other index, so
each line is transformed independently of the rest of the board.  We
embed each per-line loop body as a function on the 4-cell line (threading
the mutated line, the `zeros` counter, the `unmerged` value, the global
score and the shared `new_tile_needed` flag exactly as the C does), and
the outer loop as a fold over line indices that reads each line, runs
the pass and writes the result back.
-/

namespace Nc2048

/-- Board dimension, `#define DIM 4` in `nc_2048.h`. -/
def DIM : Nat := 4

/-- Undo stack capacity, `#define UNDO_CAPACITY 4` in `nc_2048.h`. -/
def UNDO_CAPACITY : Nat := 4

/-- One line (row or column) of the board: the cell values, C `int`s. -/
abbrev Row := List Int

/-- The board `g.tiles`, a list of `DIM` rows of `DIM` cells. -/
abbrev Board := List Row

/-- The loop state of the per-line pass in `left()` (`logic.c:51-93`):
the row being mutated in place, the `zeros` counter, the `unmerged`
value, the global `g.score`, and the `new_tile_needed` flag. -/
structure PassState where
  row : Row
  zeros : Nat
  unmerged : Int
  score : Int
  changed : Bool
deriving DecidableEq, Repr

/-- One iteration of the inner loop of `left()` (`logic.c:59-93`) at
column `j`.  Reads `g.tiles[i][j]` from the row being mutated (writes so
far happened only at indices `< j`, so this is the original value), then
takes the same four branches as the C code.  In the third branch the C
writes `g.tiles[i][j-zeros-1] = unmerged` and then reads
`g.tiles[i][j]` into `unmerged`; the written cell is distinct from the
read cell (`zeros ≥ 0` forces `j-zeros-1 < j`), so we read `v` first. -/
def leftStep (s : PassState) (j : Nat) : PassState :=
  let v := s.row.getD j 0
  if v = 0 then
    { s with zeros := s.zeros + 1 }
  else if v = s.unmerged then
    { row := s.row.set (j - s.zeros - 1) (s.unmerged * 2)
      zeros := s.zeros + 1
      unmerged := 0
      score := s.score + s.unmerged * 2
      changed := true }
  else if s.unmerged ≠ 0 then
    { row := s.row.set (j - s.zeros - 1) s.unmerged
      zeros := s.zeros
      unmerged := v
      score := s.score
      changed := if s.zeros ≠ 0 then true else s.changed }
  else
    { s with unmerged := v }

/-- The flush of a remaining `unmerged` tile after the inner loop of
`left()` (`logic.c:98-105`): write it at `DIM-zeros-1` and raise the
flag, unless that cell already holds it. -/
def leftFlush (s : PassState) : PassState :=
  if s.unmerged ≠ 0 then
    if s.row.getD (DIM - s.zeros - 1) 0 ≠ s.unmerged then
      { s with row := s.row.set (DIM - s.zeros - 1) s.unmerged, changed := true }
    else s
  else s

/-- The trailing-zero fill of `left()` (`logic.c:108-112`):
`while (zeros) { g.tiles[i][DIM-zeros] = 0; zeros--; }`. -/
def leftFill (row : Row) : Nat → Row
  | 0 => row
  | z + 1 => leftFill (row.set (DIM - (z + 1)) 0) z

/-- The whole per-row pass of `left()` on one row: the inner loop over
`j = 0..DIM-1`, the flush, and the zero fill.  Takes and returns the
global `g.score` and the shared `new_tile_needed` flag. -/
def leftRow (row : Row) (score : Int) (changed : Bool) : Row × Int × Bool :=
  let s := leftFlush ((List.range DIM).foldl leftStep ⟨row, 0, 0, score, changed⟩)
  (leftFill s.row s.zeros, s.score, s.changed)

/-- `left()` (`logic.c:32-116`): run the per-row pass on each row in
turn, threading `g.score` and `new_tile_needed` (initially false).
Returns the new board, the new score and the flag. -/
def left (t : Board) (score : Int) : Board × Int × Bool :=
  (List.range DIM).foldl
    (fun st i =>
      let r := leftRow (st.1.getD i []) st.2.1 st.2.2
      (st.1.set i r.1, r.2.1, r.2.2))
    (t, score, false)

/-- One iteration of the inner loop of `right()` (`logic.c:131-158`) at
column `j` (the loop runs `j = DIM-1` down to `0`); merge and flush
writes go to `j+zeros+1`. -/
def rightStep (s : PassState) (j : Nat) : PassState :=
  let v := s.row.getD j 0
  if v = 0 then
    { s with zeros := s.zeros + 1 }
  else if v = s.unmerged then
    { row := s.row.set (j + s.zeros + 1) (s.unmerged * 2)
      zeros := s.zeros + 1
      unmerged := 0
      score := s.score + s.unmerged * 2
      changed := true }
  else if s.unmerged ≠ 0 then
    { row := s.row.set (j + s.zeros + 1) s.unmerged
      zeros := s.zeros
      unmerged := v
      score := s.score
      changed := if s.zeros ≠ 0 then true else s.changed }
  else
    { s with unmerged := v }

/-- The final flush of `right()` (`logic.c:159-166`): write the pending
tile at index `zeros` unless that cell already holds it. -/
def rightFlush (s : PassState) : PassState :=
  if s.unmerged ≠ 0 then
    if s.row.getD s.zeros 0 ≠ s.unmerged then
      { s with row := s.row.set s.zeros s.unmerged, changed := true }
    else s
  else s

/-- The leading-zero fill of `right()` (`logic.c:167-171`):
`while (zeros) { g.tiles[i][zeros-1] = 0; zeros--; }`. -/
def rightFill (row : Row) : Nat → Row
  | 0 => row
  | z + 1 => rightFill (row.set z 0) z

/-- The whole per-row pass of `right()` on one row: the inner loop over
`j = DIM-1` down to `0`, the flush, and the zero fill. -/
def rightRow (row : Row) (score : Int) (changed : Bool) : Row × Int × Bool :=
  let s := rightFlush (((List.range DIM).reverse).foldl rightStep ⟨row, 0, 0, score, changed⟩)
  (rightFill s.row s.zeros, s.score, s.changed)

/-- `right()` (`logic.c:122-174`): the per-row pass on each row. -/
def right (t : Board) (score : Int) : Board × Int × Bool :=
  (List.range DIM).foldl
    (fun st i =>
      let r := rightRow (st.1.getD i []) st.2.1 st.2.2
      (st.1.set i r.1, r.2.1, r.2.2))
    (t, score, false)

/-- Cell read `g.tiles[i][j]`. -/
def getCell (t : Board) (i j : Nat) : Int := (t.getD i []).getD j 0

/-- Cell write `g.tiles[i][j] = v`. -/
def setCell (t : Board) (i j : Nat) (v : Int) : Board :=
  t.set i ((t.getD i []).set j v)

/-- Column `j` of the board, the line `up()`/`down()` operate on. -/
def getCol (t : Board) (j : Nat) : Row :=
  (List.range DIM).map (fun i => getCell t i j)

/-- Write line `c` back as column `j` of the board. -/
def setCol (t : Board) (j : Nat) (c : Row) : Board :=
  (List.range DIM).foldl (fun b i => setCell b i j (c.getD i 0)) t

/-- One iteration of the inner loop of `up()` (`logic.c:189-216`) at row
`i`, acting on the extracted column (cell `k` of the line is
`g.tiles[k][j]`); writes go to `i-zeros-1`, exactly the `left()` body
with the roles of `i` and `j` swapped. -/
def upStep (s : PassState) (i : Nat) : PassState :=
  let v := s.row.getD i 0
  if v = 0 then
    { s with zeros := s.zeros + 1 }
  else if v = s.unmerged then
    { row := s.row.set (i - s.zeros - 1) (s.unmerged * 2)
      zeros := s.zeros + 1
      unmerged := 0
      score := s.score + s.unmerged * 2
      changed := true }
  else if s.unmerged ≠ 0 then
    { row := s.row.set (i - s.zeros - 1) s.unmerged
      zeros := s.zeros
      unmerged := v
      score := s.score
      changed := if s.zeros ≠ 0 then true else s.changed }
  else
    { s with unmerged := v }

/-- The flush of `up()` (`logic.c:217-224`): write at `DIM-zeros-1`. -/
def upFlush (s : PassState) : PassState :=
  if s.unmerged ≠ 0 then
    if s.row.getD (DIM - s.zeros - 1) 0 ≠ s.unmerged then
      { s with row := s.row.set (DIM - s.zeros - 1) s.unmerged, changed := true }
    else s
  else s

/-- The fill of `up()` (`logic.c:225-229`): cells `DIM-zeros` onward. -/
def upFill (row : Row) : Nat → Row
  | 0 => row
  | z + 1 => upFill (row.set (DIM - (z + 1)) 0) z

/-- The whole per-column pass of `up()` on one column. -/
def upCol (row : Row) (score : Int) (changed : Bool) : Row × Int × Bool :=
  let s := upFlush ((List.range DIM).foldl upStep ⟨row, 0, 0, score, changed⟩)
  (upFill s.row s.zeros, s.score, s.changed)

/-- `up()` (`logic.c:180-232`): the per-column pass on each column `j`;
the inner loop touches only column `j` (every access is
`g.tiles[_][j]`), embedded as extract column / pass / write back. -/
def up (t : Board) (score : Int) : Board × Int × Bool :=
  (List.range DIM).foldl
    (fun st j =>
      let r := upCol (getCol st.1 j) st.2.1 st.2.2
      (setCol st.1 j r.1, r.2.1, r.2.2))
    (t, score, false)

/-- One iteration of the inner loop of `down()` (`logic.c:248-275`) at
row `i` (the loop runs `i = DIM-1` down to `0`), acting on the extracted
column; writes go to `i+zeros+1`. -/
def downStep (s : PassState) (i : Nat) : PassState :=
  let v := s.row.getD i 0
  if v = 0 then
    { s with zeros := s.zeros + 1 }
  else if v = s.unmerged then
    { row := s.row.set (i + s.zeros + 1) (s.unmerged * 2)
      zeros := s.zeros + 1
      unmerged := 0
      score := s.score + s.unmerged * 2
      changed := true }
  else if s.unmerged ≠ 0 then
    { row := s.row.set (i + s.zeros + 1) s.unmerged
      zeros := s.zeros
      unmerged := v
      score := s.score
      changed := if s.zeros ≠ 0 then true else s.changed }
  else
    { s with unmerged := v }

/-- The flush of `down()` (`logic.c:276-283`): write at index `zeros`. -/
def downFlush (s : PassState) : PassState :=
  if s.unmerged ≠ 0 then
    if s.row.getD s.zeros 0 ≠ s.unmerged then
      { s with row := s.row.set s.zeros s.unmerged, changed := true }
    else s
  else s

/-- The fill of `down()` (`logic.c:284-288`): cells `zeros-1` down. -/
def downFill (row : Row) : Nat → Row
  | 0 => row
  | z + 1 => downFill (row.set z 0) z

/-- The whole per-column pass of `down()` on one column. -/
def downCol (row : Row) (score : Int) (changed : Bool) : Row × Int × Bool :=
  let s := downFlush (((List.range DIM).reverse).foldl downStep ⟨row, 0, 0, score, changed⟩)
  (downFill s.row s.zeros, s.score, s.changed)

/-- `down()` (`logic.c:238-291`): the per-column pass on each column. -/
def down (t : Board) (score : Int) : Board × Int × Bool :=
  (List.range DIM).foldl
    (fun st j =>
      let r := downCol (getCol st.1 j) st.2.1 st.2.2
      (setCol st.1 j r.1, r.2.1, r.2.2))
    (t, score, false)

/-- A board is well-formed when it is `DIM` rows of `DIM` cells each. -/
def Shaped (t : Board) : Prop := t.length = DIM ∧ ∀ r ∈ t, r.length = DIM

instance : DecidablePred Shaped := fun t => by
  unfold Shaped; infer_instance

/-- The cell coordinates `(i, j)` in the row-major order in which the
nested loops of `new_tile()`, `move_available()` and the counting loop
of `new_tile()` visit them. -/
def cellIdx : List (Nat × Nat) :=
  (List.range DIM).flatMap (fun i => (List.range DIM).map (fun j => (i, j)))

/-- `move_available()` (`logic.c:354-378`): scan all cells in row-major
order and return true at the first cell that is zero, or that equals its
lower neighbour (when `i < DIM-1`), or its right neighbour (when
`j < DIM-1`); the early-return loop is an `any` over the scan order. -/
def move_available (t : Board) : Bool :=
  cellIdx.any (fun p =>
    decide (getCell t p.1 p.2 = 0) ||
    (decide (p.1 < DIM - 1) && decide (getCell t p.1 p.2 = getCell t (p.1 + 1) p.2)) ||
    (decide (p.2 < DIM - 1) && decide (getCell t p.1 p.2 = getCell t p.1 (p.2 + 1))))

/-- The first counting loop of `new_tile()` (`logic.c:302-312`): the
number of zero cells of the board. -/
def zeros_count (t : Board) : Nat :=
  cellIdx.countP (fun p => decide (getCell t p.1 p.2 = 0))

/-- The placing loop of `new_tile()` (`logic.c:329-347`): scan the cells
in row-major order counting zero cells in `zc`; at the zero cell whose
running count equals `new_placement`, write the tile and return. -/
def place_loop (t : Board) (idx : List (Nat × Nat)) (zc new_placement : Nat) (v : Int) : Board :=
  match idx with
  | [] => t
  | p :: rest =>
    if getCell t p.1 p.2 = 0 then
      if zc = new_placement then setCell t p.1 p.2 v
      else place_loop t rest (zc + 1) new_placement v
    else place_loop t rest zc new_placement v

/-- `new_tile()` (`logic.c:299-348`).  The two `drand48()` draws (libc,
not part of this repository) are modelled as the rationals `d1` and
`d2`, each in `[0,1)`; the C cast `(int)(drand48() * zeros_count)` is
the floor of the non-negative product.  With `random_tiles` false the
placement is `0` and the tile is `2`; otherwise the placement is
`⌊d1 * zeros_count⌋` and the tile is `2` when `d2 < 0.9`, else `4`. -/
def new_tile (t : Board) (random_tiles : Bool) (d1 d2 : ℚ) : Board :=
  let zc := zeros_count t
  let new_placement : Nat := if random_tiles then (⌊d1 * zc⌋).toNat else 0
  let ntile : Int := if random_tiles then (if d2 < 9 / 10 then 2 else 4) else 2
  place_loop t cellIdx 0 new_placement ntile

/-- `struct stack` (`nc_2048.h:91-104`): the circular undo stack.  The
C `top` is an `int` that `new_game()` initialises to `0` and that both
stack operations keep in `[0, UNDO_CAPACITY)`, so it is embedded as
`Fin UNDO_CAPACITY`; `size` is a `Nat`. -/
structure stack where
  tiles : Fin UNDO_CAPACITY → Board
  score : Fin UNDO_CAPACITY → Int
  top : Fin UNDO_CAPACITY
  size : Nat
deriving DecidableEq

/-- `struct game` (`nc_2048.h:107-122`): the whole game state, with the
display coordinates `x, y`, the board, the score and the undo stack. -/
structure game where
  x : Int
  y : Int
  tiles : Board
  score : Int
  undo : stack
deriving DecidableEq

/-- `push_undo()` (`logic.c:384-397`): cyclically advance the stack top,
grow `size` up to the capacity, and copy the current tiles and score
into the slot at the new top. -/
def push_undo (g : game) : game :=
  let top' : Fin UNDO_CAPACITY := ⟨(g.undo.top.val + 1) % UNDO_CAPACITY, Nat.mod_lt _ (by decide)⟩
  { g with undo :=
    { g.undo with
      top := top'
      size := if g.undo.size < UNDO_CAPACITY then g.undo.size + 1 else g.undo.size
      tiles := Function.update g.undo.tiles top' g.tiles
      score := Function.update g.undo.score top' g.score } }

/-- `pop_undo()` (`logic.c:404-425`): fail when `size <= 1`; otherwise
restore the tiles and score stored at the index cyclically preceding
`top`, decrement `top` cyclically and decrement `size`. -/
def pop_undo (g : game) : game × Bool :=
  if g.undo.size ≤ 1 then (g, false)
  else
    let index : Fin UNDO_CAPACITY :=
      if g.undo.top.val ≠ 0 then ⟨g.undo.top.val - 1, by have h := g.undo.top.isLt; omega⟩
      else ⟨UNDO_CAPACITY - 1, by decide⟩
    ({ g with
        tiles := g.undo.tiles index
        score := g.undo.score index
        undo :=
          { g.undo with
            top := ⟨(g.undo.top.val + UNDO_CAPACITY - 1) % UNDO_CAPACITY, Nat.mod_lt _ (by decide)⟩
            size := g.undo.size - 1 } },
     true)

/-- The content of the save file `SAVEFILE`.  `save_game()`
(`logic.c:431-447`) writes the whole global `struct game g` with a
single `fwrite(&g, sizeof g, 1, fp)`, so a complete record is an entire
`game` value; `absent` models a file that cannot be opened and `short`
a file whose read yields fewer bytes than a full record (the stdio
calls themselves are libc, not part of this repository). -/
inductive SaveFile where
  | absent : SaveFile
  | short : SaveFile
  | full : game → SaveFile
deriving DecidableEq

/-- `save_game()` (`logic.c:431-447`) on its success path: the record
written to the file is the entire game struct `g`. -/
def save_game (g : game) : SaveFile := SaveFile.full g

/-- `load_game()` (`logic.c:453-473`): fail (leaving `g` untouched) when
the file cannot be opened or `fread` does not yield one full record;
otherwise copy the record read into the temporary over the whole global
`g` and succeed. -/
def load_game (f : SaveFile) (g : game) : game × Bool :=
  match f with
  | SaveFile.absent => (g, false)
  | SaveFile.short => (g, false)
  | SaveFile.full temp => (temp, true)

instance : NeZero UNDO_CAPACITY := ⟨by decide⟩

/-- The snapshot `(tiles, score)` stored `k` slots before the top of the
undo stack, most recent first: the stack's current contents in
most-recent-first order are `recent u`. -/
def recent (u : stack) : List (Board × Int) :=
  [(u.tiles u.top, u.score u.top),
   (u.tiles (u.top - 1), u.score (u.top - 1)),
   (u.tiles (u.top - 2), u.score (u.top - 2)),
   (u.tiles (u.top - 3), u.score (u.top - 3))]

/-- Set the live tiles and score and push them, as the game loop does
after a board-changing move (`nc_2048.c:193-200`). -/
def pushState (g : game) (p : Board × Int) : game :=
  push_undo { g with tiles := p.1, score := p.2 }

/-- Push a sequence of snapshots in order. -/
def pushAll (g : game) (l : List (Board × Int)) : game :=
  l.foldl pushState g

/-- Mirror each row of the board (the horizontal reflection used to
state the left/right symmetry). -/
def mirrorB (t : Board) : Board := t.map List.reverse

/-- The transpose of the board: row `j` of `transposeB t` is column `j`
of `t` (used to state the up/down symmetries). -/
def transposeB (t : Board) : Board := (List.range DIM).map (getCol t)

/-- A line contains two adjacent equal non-zero tiles. -/
def adjPair (r : Row) : Prop :=
  ∃ j < DIM - 1, r.getD j 0 = r.getD (j + 1) 0 ∧ r.getD j 0 ≠ 0

instance : DecidablePred adjPair := fun r => by
  unfold adjPair; infer_instance

/-- A concrete game value used in witnesses and counterexamples. -/
def g_base : game :=
  ⟨0, 0, [[0, 0, 0, 0], [0, 0, 0, 0], [0, 0, 0, 0], [0, 0, 0, 0]], 0,
   ⟨fun _ => [], fun _ => 0, 0, 0⟩⟩

/-- A second concrete game whose undo stack differs from `g_base`'s. -/
def g_alt : game :=
  { g_base with score := 7, undo := { g_base.undo with score := fun _ => 5, size := 1 } }

/-- Five concrete snapshots to push in witnesses. -/
def pushes5 : List (Board × Int) :=
  [([[2]], 1), ([[4]], 2), ([[8]], 3), ([[16]], 4), ([[32]], 5)]

end Nc2048

namespace Nc2048

/-! Helper lemmas. -/

theorem range_four : List.range 4 = [0, 1, 2, 3] := rfl

theorem eq_or_ne2 (x y : Int) : x = y ∨ (x ≠ y ∧ y ≠ x) := by
  rcases eq_or_ne x y with h | h
  · exact Or.inl h
  · exact Or.inr ⟨h, h.symm⟩

theorem upStep_eq_leftStep : upStep = leftStep := by
  funext s j
  simp only [upStep, leftStep]

theorem downStep_eq_rightStep : downStep = rightStep := by
  funext s j
  simp only [downStep, rightStep]

theorem upFlush_eq_leftFlush : upFlush = leftFlush := by
  funext s
  simp only [upFlush, leftFlush]

theorem downFlush_eq_rightFlush : downFlush = rightFlush := by
  funext s
  simp only [downFlush, rightFlush]

theorem upFill_eq_leftFill : upFill = leftFill := by
  funext r z
  induction z generalizing r with
  | zero => rfl
  | succ n ih => simp only [upFill, leftFill]; rw [ih]

theorem downFill_eq_rightFill : downFill = rightFill := by
  funext r z
  induction z generalizing r with
  | zero => rfl
  | succ n ih => simp only [downFill, rightFill]; rw [ih]

theorem upCol_eq_leftRow : upCol = leftRow := by
  funext r s ch
  simp only [upCol, leftRow, upStep_eq_leftStep, upFlush_eq_leftFlush, upFill_eq_leftFill]

theorem downCol_eq_rightRow : downCol = rightRow := by
  funext r s ch
  simp only [downCol, rightRow, downStep_eq_rightStep, downFlush_eq_rightFlush,
    downFill_eq_rightFill]

theorem leftStep_thread (r : Row) (z : Nat) (u s : Int) (ch : Bool) (j : Nat) :
    leftStep ⟨r, z, u, s, ch⟩ j =
      { leftStep ⟨r, z, u, 0, false⟩ j with
        score := s + (leftStep ⟨r, z, u, 0, false⟩ j).score
        changed := ch || (leftStep ⟨r, z, u, 0, false⟩ j).changed } := by
  simp only [leftStep]
  split_ifs <;> simp_all

theorem rightStep_thread (r : Row) (z : Nat) (u s : Int) (ch : Bool) (j : Nat) :
    rightStep ⟨r, z, u, s, ch⟩ j =
      { rightStep ⟨r, z, u, 0, false⟩ j with
        score := s + (rightStep ⟨r, z, u, 0, false⟩ j).score
        changed := ch || (rightStep ⟨r, z, u, 0, false⟩ j).changed } := by
  simp only [rightStep]
  split_ifs <;> simp_all

theorem foldl_leftStep_thread (l : List Nat) :
    ∀ (r : Row) (z : Nat) (u s : Int) (ch : Bool),
      List.foldl leftStep ⟨r, z, u, s, ch⟩ l =
        { List.foldl leftStep ⟨r, z, u, 0, false⟩ l with
          score := s + (List.foldl leftStep ⟨r, z, u, 0, false⟩ l).score
          changed := ch || (List.foldl leftStep ⟨r, z, u, 0, false⟩ l).changed } := by
  induction l with
  | nil => intro r z u s ch; simp
  | cons x xs ih =>
    intro r z u s ch
    simp only [List.foldl_cons]
    rw [leftStep_thread]
    generalize leftStep ⟨r, z, u, 0, false⟩ x = B
    rcases B with ⟨r', z', u', s', ch'⟩
    simp only []
    rw [ih r' z' u' (s + s') (ch || ch'), ih r' z' u' s' ch']
    generalize List.foldl leftStep ⟨r', z', u', 0, false⟩ xs = C
    rcases C with ⟨r2, z2, u2, s2, ch2⟩
    simp only [PassState.mk.injEq, true_and]
    constructor
    · omega
    · rw [Bool.or_assoc]

theorem foldl_rightStep_thread (l : List Nat) :
    ∀ (r : Row) (z : Nat) (u s : Int) (ch : Bool),
      List.foldl rightStep ⟨r, z, u, s, ch⟩ l =
        { List.foldl rightStep ⟨r, z, u, 0, false⟩ l with
          score := s + (List.foldl rightStep ⟨r, z, u, 0, false⟩ l).score
          changed := ch || (List.foldl rightStep ⟨r, z, u, 0, false⟩ l).changed } := by
  induction l with
  | nil => intro r z u s ch; simp
  | cons x xs ih =>
    intro r z u s ch
    simp only [List.foldl_cons]
    rw [rightStep_thread]
    generalize rightStep ⟨r, z, u, 0, false⟩ x = B
    rcases B with ⟨r', z', u', s', ch'⟩
    simp only []
    rw [ih r' z' u' (s + s') (ch || ch'), ih r' z' u' s' ch']
    generalize List.foldl rightStep ⟨r', z', u', 0, false⟩ xs = C
    rcases C with ⟨r2, z2, u2, s2, ch2⟩
    simp only [PassState.mk.injEq, true_and]
    constructor
    · omega
    · rw [Bool.or_assoc]

theorem leftFlush_thread (r : Row) (z : Nat) (u s : Int) (ch : Bool) :
    leftFlush ⟨r, z, u, s, ch⟩ =
      { leftFlush ⟨r, z, u, 0, false⟩ with
        score := s + (leftFlush ⟨r, z, u, 0, false⟩).score
        changed := ch || (leftFlush ⟨r, z, u, 0, false⟩).changed } := by
  simp only [leftFlush]
  split_ifs <;> simp_all

theorem rightFlush_thread (r : Row) (z : Nat) (u s : Int) (ch : Bool) :
    rightFlush ⟨r, z, u, s, ch⟩ =
      { rightFlush ⟨r, z, u, 0, false⟩ with
        score := s + (rightFlush ⟨r, z, u, 0, false⟩).score
        changed := ch || (rightFlush ⟨r, z, u, 0, false⟩).changed } := by
  simp only [rightFlush]
  split_ifs <;> simp_all

theorem leftRow_thread (row : Row) (s : Int) (ch : Bool) :
    leftRow row s ch =
      ((leftRow row 0 false).1, s + (leftRow row 0 false).2.1,
       ch || (leftRow row 0 false).2.2) := by
  simp only [leftRow]
  rw [foldl_leftStep_thread]
  generalize List.foldl leftStep ⟨row, 0, 0, 0, false⟩ (List.range DIM) = B
  rcases B with ⟨r', z', u', s', ch'⟩
  simp only []
  rw [leftFlush_thread r' z' u' (s + s') (ch || ch'), leftFlush_thread r' z' u' s' ch']
  generalize leftFlush ⟨r', z', u', 0, false⟩ = C
  rcases C with ⟨r2, z2, u2, s2, ch2⟩
  simp only [Prod.mk.injEq, true_and]
  constructor
  · omega
  · rw [Bool.or_assoc]

theorem rightRow_thread (row : Row) (s : Int) (ch : Bool) :
    rightRow row s ch =
      ((rightRow row 0 false).1, s + (rightRow row 0 false).2.1,
       ch || (rightRow row 0 false).2.2) := by
  simp only [rightRow]
  rw [foldl_rightStep_thread]
  generalize List.foldl rightStep ⟨row, 0, 0, 0, false⟩ (List.range DIM).reverse = B
  rcases B with ⟨r', z', u', s', ch'⟩
  simp only []
  rw [rightFlush_thread r' z' u' (s + s') (ch || ch'), rightFlush_thread r' z' u' s' ch']
  generalize rightFlush ⟨r', z', u', 0, false⟩ = C
  rcases C with ⟨r2, z2, u2, s2, ch2⟩
  simp only [Prod.mk.injEq, true_and]
  constructor
  · omega
  · rw [Bool.or_assoc]

end Nc2048

namespace Nc2048

theorem left_eq_rows (r0 r1 r2 r3 : Row) (s : Int) :
    left [r0, r1, r2, r3] s =
      ([(leftRow r0 0 false).1, (leftRow r1 0 false).1,
        (leftRow r2 0 false).1, (leftRow r3 0 false).1],
       s + (leftRow r0 0 false).2.1 + (leftRow r1 0 false).2.1 +
         (leftRow r2 0 false).2.1 + (leftRow r3 0 false).2.1,
       (leftRow r0 0 false).2.2 || (leftRow r1 0 false).2.2 ||
         (leftRow r2 0 false).2.2 || (leftRow r3 0 false).2.2) := by
  simp only [left, DIM, range_four, List.foldl_cons, List.foldl_nil, List.getD_cons_zero,
    List.getD_cons_succ, List.set_cons_zero, List.set_cons_succ]
  rw [leftRow_thread r0 s false]
  simp only [List.getD_cons_zero, List.getD_cons_succ, List.set_cons_zero, List.set_cons_succ]
  rw [leftRow_thread r1, leftRow_thread r2, leftRow_thread r3]
  simp only [Bool.false_or, Prod.mk.injEq, List.cons.injEq, and_true, true_and]

theorem right_eq_rows (r0 r1 r2 r3 : Row) (s : Int) :
    right [r0, r1, r2, r3] s =
      ([(rightRow r0 0 false).1, (rightRow r1 0 false).1,
        (rightRow r2 0 false).1, (rightRow r3 0 false).1],
       s + (rightRow r0 0 false).2.1 + (rightRow r1 0 false).2.1 +
         (rightRow r2 0 false).2.1 + (rightRow r3 0 false).2.1,
       (rightRow r0 0 false).2.2 || (rightRow r1 0 false).2.2 ||
         (rightRow r2 0 false).2.2 || (rightRow r3 0 false).2.2) := by
  simp only [right, DIM, range_four, List.foldl_cons, List.foldl_nil, List.getD_cons_zero,
    List.getD_cons_succ, List.set_cons_zero, List.set_cons_succ]
  rw [rightRow_thread r0 s false]
  simp only [List.getD_cons_zero, List.getD_cons_succ, List.set_cons_zero, List.set_cons_succ]
  rw [rightRow_thread r1, rightRow_thread r2, rightRow_thread r3]
  simp only [Bool.false_or, Prod.mk.injEq, List.cons.injEq, and_true, true_and]

end Nc2048

namespace Nc2048

theorem row_destruct (r : Row) (h : r.length = DIM) : ∃ a b c d : Int, r = [a, b, c, d] := by
  obtain ⟨a, r1, rfl⟩ := List.exists_of_length_succ r h
  simp only [DIM, List.length_cons, Nat.succ_inj] at h
  obtain ⟨b, c, d, rfl⟩ := List.length_eq_three.mp h
  exact ⟨a, b, c, d, rfl⟩

theorem board_destruct (t : Board) (h : Shaped t) :
    ∃ a00 a01 a02 a03 a10 a11 a12 a13 a20 a21 a22 a23 a30 a31 a32 a33 : Int,
      t = [[a00, a01, a02, a03], [a10, a11, a12, a13],
           [a20, a21, a22, a23], [a30, a31, a32, a33]] := by
  obtain ⟨ht, hr⟩ := h
  obtain ⟨r0, t1, rfl⟩ := List.exists_of_length_succ t ht
  simp only [DIM, List.length_cons, Nat.succ_inj] at ht
  obtain ⟨r1, r2, r3, rfl⟩ := List.length_eq_three.mp ht
  obtain ⟨a00, a01, a02, a03, rfl⟩ := row_destruct r0 (hr r0 (by simp))
  obtain ⟨a10, a11, a12, a13, rfl⟩ := row_destruct r1 (hr r1 (by simp))
  obtain ⟨a20, a21, a22, a23, rfl⟩ := row_destruct r2 (hr r2 (by simp))
  obtain ⟨a30, a31, a32, a33, rfl⟩ := row_destruct r3 (hr r3 (by simp))
  exact ⟨a00, a01, a02, a03, a10, a11, a12, a13, a20, a21, a22, a23, a30, a31, a32, a33, rfl⟩

end Nc2048

namespace Nc2048

theorem up_eq_cols (a00 a01 a02 a03 a10 a11 a12 a13 a20 a21 a22 a23 a30 a31 a32 a33 s : Int) :
    up [[a00, a01, a02, a03], [a10, a11, a12, a13],
        [a20, a21, a22, a23], [a30, a31, a32, a33]] s =
      ([[(leftRow [a00, a10, a20, a30] 0 false).1.getD 0 0,
         (leftRow [a01, a11, a21, a31] 0 false).1.getD 0 0,
         (leftRow [a02, a12, a22, a32] 0 false).1.getD 0 0,
         (leftRow [a03, a13, a23, a33] 0 false).1.getD 0 0],
        [(leftRow [a00, a10, a20, a30] 0 false).1.getD 1 0,
         (leftRow [a01, a11, a21, a31] 0 false).1.getD 1 0,
         (leftRow [a02, a12, a22, a32] 0 false).1.getD 1 0,
         (leftRow [a03, a13, a23, a33] 0 false).1.getD 1 0],
        [(leftRow [a00, a10, a20, a30] 0 false).1.getD 2 0,
         (leftRow [a01, a11, a21, a31] 0 false).1.getD 2 0,
         (leftRow [a02, a12, a22, a32] 0 false).1.getD 2 0,
         (leftRow [a03, a13, a23, a33] 0 false).1.getD 2 0],
        [(leftRow [a00, a10, a20, a30] 0 false).1.getD 3 0,
         (leftRow [a01, a11, a21, a31] 0 false).1.getD 3 0,
         (leftRow [a02, a12, a22, a32] 0 false).1.getD 3 0,
         (leftRow [a03, a13, a23, a33] 0 false).1.getD 3 0]],
       s + (leftRow [a00, a10, a20, a30] 0 false).2.1 +
         (leftRow [a01, a11, a21, a31] 0 false).2.1 +
         (leftRow [a02, a12, a22, a32] 0 false).2.1 +
         (leftRow [a03, a13, a23, a33] 0 false).2.1,
       (leftRow [a00, a10, a20, a30] 0 false).2.2 ||
         (leftRow [a01, a11, a21, a31] 0 false).2.2 ||
         (leftRow [a02, a12, a22, a32] 0 false).2.2 ||
         (leftRow [a03, a13, a23, a33] 0 false).2.2) := by
  simp only [up, upCol_eq_leftRow, DIM, range_four, List.foldl_cons, List.foldl_nil, getCol,
    getCell, setCol, setCell, List.map_cons, List.map_nil, List.getD_cons_zero,
    List.getD_cons_succ, List.set_cons_zero, List.set_cons_succ]
  rw [leftRow_thread [a00, a10, a20, a30] s false]
  simp only [List.getD_cons_zero, List.getD_cons_succ, List.set_cons_zero, List.set_cons_succ]
  rw [leftRow_thread [a01, a11, a21, a31], leftRow_thread [a02, a12, a22, a32],
    leftRow_thread [a03, a13, a23, a33]]
  simp only [Bool.false_or, Prod.mk.injEq, List.cons.injEq, and_true, true_and]

theorem down_eq_cols (a00 a01 a02 a03 a10 a11 a12 a13 a20 a21 a22 a23 a30 a31 a32 a33 s : Int) :
    down [[a00, a01, a02, a03], [a10, a11, a12, a13],
        [a20, a21, a22, a23], [a30, a31, a32, a33]] s =
      ([[(rightRow [a00, a10, a20, a30] 0 false).1.getD 0 0,
         (rightRow [a01, a11, a21, a31] 0 false).1.getD 0 0,
         (rightRow [a02, a12, a22, a32] 0 false).1.getD 0 0,
         (rightRow [a03, a13, a23, a33] 0 false).1.getD 0 0],
        [(rightRow [a00, a10, a20, a30] 0 false).1.getD 1 0,
         (rightRow [a01, a11, a21, a31] 0 false).1.getD 1 0,
         (rightRow [a02, a12, a22, a32] 0 false).1.getD 1 0,
         (rightRow [a03, a13, a23, a33] 0 false).1.getD 1 0],
        [(rightRow [a00, a10, a20, a30] 0 false).1.getD 2 0,
         (rightRow [a01, a11, a21, a31] 0 false).1.getD 2 0,
         (rightRow [a02, a12, a22, a32] 0 false).1.getD 2 0,
         (rightRow [a03, a13, a23, a33] 0 false).1.getD 2 0],
        [(rightRow [a00, a10, a20, a30] 0 false).1.getD 3 0,
         (rightRow [a01, a11, a21, a31] 0 false).1.getD 3 0,
         (rightRow [a02, a12, a22, a32] 0 false).1.getD 3 0,
         (rightRow [a03, a13, a23, a33] 0 false).1.getD 3 0]],
       s + (rightRow [a00, a10, a20, a30] 0 false).2.1 +
         (rightRow [a01, a11, a21, a31] 0 false).2.1 +
         (rightRow [a02, a12, a22, a32] 0 false).2.1 +
         (rightRow [a03, a13, a23, a33] 0 false).2.1,
       (rightRow [a00, a10, a20, a30] 0 false).2.2 ||
         (rightRow [a01, a11, a21, a31] 0 false).2.2 ||
         (rightRow [a02, a12, a22, a32] 0 false).2.2 ||
         (rightRow [a03, a13, a23, a33] 0 false).2.2) := by
  simp only [down, downCol_eq_rightRow, DIM, range_four, List.foldl_cons, List.foldl_nil, getCol,
    getCell, setCol, setCell, List.map_cons, List.map_nil, List.getD_cons_zero,
    List.getD_cons_succ, List.set_cons_zero, List.set_cons_succ]
  rw [rightRow_thread [a00, a10, a20, a30] s false]
  simp only [List.getD_cons_zero, List.getD_cons_succ, List.set_cons_zero, List.set_cons_succ]
  rw [rightRow_thread [a01, a11, a21, a31], rightRow_thread [a02, a12, a22, a32],
    rightRow_thread [a03, a13, a23, a33]]
  simp only [Bool.false_or, Prod.mk.injEq, List.cons.injEq, and_true, true_and]

end Nc2048

namespace Nc2048

theorem foldl_leftStep_row_length (l : List Nat) :
    ∀ st : PassState, ((List.foldl leftStep st l).row).length = st.row.length := by
  induction l with
  | nil => intro st; rfl
  | cons x xs ih =>
    intro st
    simp only [List.foldl_cons]
    rw [ih]
    simp only [leftStep]
    split_ifs <;> simp [List.length_set]

theorem foldl_rightStep_row_length (l : List Nat) :
    ∀ st : PassState, ((List.foldl rightStep st l).row).length = st.row.length := by
  induction l with
  | nil => intro st; rfl
  | cons x xs ih =>
    intro st
    simp only [List.foldl_cons]
    rw [ih]
    simp only [rightStep]
    split_ifs <;> simp [List.length_set]

theorem leftFill_length (z : Nat) : ∀ r : Row, (leftFill r z).length = r.length := by
  induction z with
  | zero => intro r; rfl
  | succ n ih => intro r; simp only [leftFill]; rw [ih]; simp [List.length_set]

theorem rightFill_length (z : Nat) : ∀ r : Row, (rightFill r z).length = r.length := by
  induction z with
  | zero => intro r; rfl
  | succ n ih => intro r; simp only [rightFill]; rw [ih]; simp [List.length_set]

theorem leftRow_length (row : Row) (s : Int) (ch : Bool) :
    ((leftRow row s ch).1).length = row.length := by
  simp only [leftRow]
  rw [leftFill_length]
  simp only [leftFlush]
  split_ifs <;> (try simp only [List.length_set]) <;> rw [foldl_leftStep_row_length]

theorem rightRow_length (row : Row) (s : Int) (ch : Bool) :
    ((rightRow row s ch).1).length = row.length := by
  simp only [rightRow]
  rw [rightFill_length]
  simp only [rightFlush]
  split_ifs <;> (try simp only [List.length_set]) <;> rw [foldl_rightStep_row_length]

set_option maxHeartbeats 8000000 in
set_option maxRecDepth 2000 in
theorem leftRow_changed_iff (a b c d : Int) :
    ((leftRow [a, b, c, d] 0 false).2.2 = false ↔ (leftRow [a, b, c, d] 0 false).1 = [a, b, c, d])
      ∧ ((leftRow [a, b, c, d] 0 false).2.2 = false →
          (leftRow [a, b, c, d] 0 false).2.1 = 0) := by
  rcases eq_or_ne2 a 0 with ha | ⟨ha, ha'⟩ <;>
  rcases eq_or_ne2 b 0 with hb | ⟨hb, hb'⟩ <;>
  rcases eq_or_ne2 c 0 with hc | ⟨hc, hc'⟩ <;>
  rcases eq_or_ne2 d 0 with hd | ⟨hd, hd'⟩ <;>
  rcases eq_or_ne2 b a with hba | ⟨hba, hba'⟩ <;>
  rcases eq_or_ne2 c a with hca | ⟨hca, hca'⟩ <;>
  rcases eq_or_ne2 c b with hcb | ⟨hcb, hcb'⟩ <;>
  rcases eq_or_ne2 d a with hda | ⟨hda, hda'⟩ <;>
  rcases eq_or_ne2 d b with hdb | ⟨hdb, hdb'⟩ <;>
  rcases eq_or_ne2 d c with hdc | ⟨hdc, hdc'⟩ <;>
  simp_all [leftRow, leftStep, leftFlush, leftFill, DIM, range_four]

end Nc2048

namespace Nc2048

set_option maxHeartbeats 8000000 in
set_option maxRecDepth 2000 in
theorem rightRow_mirror (a b c d : Int) :
    rightRow [a, b, c, d] 0 false =
      ((leftRow [d, c, b, a] 0 false).1.reverse,
       (leftRow [d, c, b, a] 0 false).2.1,
       (leftRow [d, c, b, a] 0 false).2.2) := by
  rcases eq_or_ne2 a 0 with ha | ⟨ha, ha'⟩ <;>
  rcases eq_or_ne2 b 0 with hb | ⟨hb, hb'⟩ <;>
  rcases eq_or_ne2 c 0 with hc | ⟨hc, hc'⟩ <;>
  rcases eq_or_ne2 d 0 with hd | ⟨hd, hd'⟩ <;>
  rcases eq_or_ne2 b a with hba | ⟨hba, hba'⟩ <;>
  rcases eq_or_ne2 c a with hca | ⟨hca, hca'⟩ <;>
  rcases eq_or_ne2 c b with hcb | ⟨hcb, hcb'⟩ <;>
  rcases eq_or_ne2 d a with hda | ⟨hda, hda'⟩ <;>
  rcases eq_or_ne2 d b with hdb | ⟨hdb, hdb'⟩ <;>
  rcases eq_or_ne2 d c with hdc | ⟨hdc, hdc'⟩ <;>
  simp_all [rightRow, rightStep, rightFlush, rightFill, leftRow, leftStep, leftFlush, leftFill,
    DIM, range_four]

end Nc2048

namespace Nc2048

set_option maxHeartbeats 8000000 in
set_option maxRecDepth 2000 in
theorem leftRow_compact (a b c d : Int) :
    ((leftRow [a, b, c, d] 0 false).1.getD 0 0 = 0 → (leftRow [a, b, c, d] 0 false).1.getD 1 0 = 0)
    ∧ ((leftRow [a, b, c, d] 0 false).1.getD 1 0 = 0 →
        (leftRow [a, b, c, d] 0 false).1.getD 2 0 = 0)
    ∧ ((leftRow [a, b, c, d] 0 false).1.getD 2 0 = 0 →
        (leftRow [a, b, c, d] 0 false).1.getD 3 0 = 0) := by
  rcases eq_or_ne2 a 0 with ha | ⟨ha, ha'⟩ <;>
  rcases eq_or_ne2 b 0 with hb | ⟨hb, hb'⟩ <;>
  rcases eq_or_ne2 c 0 with hc | ⟨hc, hc'⟩ <;>
  rcases eq_or_ne2 d 0 with hd | ⟨hd, hd'⟩ <;>
  rcases eq_or_ne2 b a with hba | ⟨hba, hba'⟩ <;>
  rcases eq_or_ne2 c a with hca | ⟨hca, hca'⟩ <;>
  rcases eq_or_ne2 c b with hcb | ⟨hcb, hcb'⟩ <;>
  rcases eq_or_ne2 d a with hda | ⟨hda, hda'⟩ <;>
  rcases eq_or_ne2 d b with hdb | ⟨hdb, hdb'⟩ <;>
  rcases eq_or_ne2 d c with hdc | ⟨hdc, hdc'⟩ <;>
  simp_all [leftRow, leftStep, leftFlush, leftFill, DIM, range_four]

set_option maxHeartbeats 8000000 in
set_option maxRecDepth 2000 in
theorem leftRow_adjacent (a b c d : Int) (h1 : a = 0 → b = 0) (h2 : b = 0 → c = 0)
    (h3 : c = 0 → d = 0) :
    (leftRow [a, b, c, d] 0 false).2.2 = true ↔
      ((a = b ∧ a ≠ 0) ∨ (b = c ∧ b ≠ 0) ∨ (c = d ∧ c ≠ 0)) := by
  rcases eq_or_ne2 a 0 with ha | ⟨ha, ha'⟩ <;>
  rcases eq_or_ne2 b 0 with hb | ⟨hb, hb'⟩ <;>
  rcases eq_or_ne2 c 0 with hc | ⟨hc, hc'⟩ <;>
  rcases eq_or_ne2 d 0 with hd | ⟨hd, hd'⟩ <;>
  rcases eq_or_ne2 b a with hba | ⟨hba, hba'⟩ <;>
  rcases eq_or_ne2 c a with hca | ⟨hca, hca'⟩ <;>
  rcases eq_or_ne2 c b with hcb | ⟨hcb, hcb'⟩ <;>
  rcases eq_or_ne2 d a with hda | ⟨hda, hda'⟩ <;>
  rcases eq_or_ne2 d b with hdb | ⟨hdb, hdb'⟩ <;>
  rcases eq_or_ne2 d c with hdc | ⟨hdc, hdc'⟩ <;>
  simp_all [leftRow, leftStep, leftFlush, leftFill, DIM, range_four]

end Nc2048

namespace Nc2048

/-- C1: `left()` transforms each row independently (the output board is
the per-row pass applied to each row in place), and on the documented
rows: `[0,2,0,2] ↦ [4,0,0,0]` adding 4 to the score, `[4,0,4,4] ↦
[8,4,0,0]` adding 8, `[2,2,2,2] ↦ [4,4,0,0]` (not `[8,0,0,0]`) adding 8,
and `[2,4,4,2] ↦ [2,8,2,0]` adding 8, each reporting a change. -/
theorem claim_C1_left_rows :
    (∀ (r0 r1 r2 r3 : Row) (s : Int),
        (left [r0, r1, r2, r3] s).1 =
          [(leftRow r0 0 false).1, (leftRow r1 0 false).1,
           (leftRow r2 0 false).1, (leftRow r3 0 false).1])
    ∧ (∀ (s : Int) (ch : Bool), leftRow [0, 2, 0, 2] s ch = ([4, 0, 0, 0], s + 4, true))
    ∧ (∀ (s : Int) (ch : Bool), leftRow [4, 0, 4, 4] s ch = ([8, 4, 0, 0], s + 8, true))
    ∧ (∀ (s : Int) (ch : Bool), leftRow [2, 2, 2, 2] s ch = ([4, 4, 0, 0], s + 8, true))
    ∧ (∀ (s : Int) (ch : Bool), leftRow [2, 4, 4, 2] s ch = ([2, 8, 2, 0], s + 8, true))
    ∧ ([4, 4, 0, 0] : Row) ≠ [8, 0, 0, 0] := by
  refine ⟨?_, ?_, ?_, ?_, ?_, by decide⟩
  · intro r0 r1 r2 r3 s
    rw [left_eq_rows]
  · intro s ch
    rw [leftRow_thread]
    have h : leftRow [0, 2, 0, 2] 0 false = ([4, 0, 0, 0], 4, true) := by decide
    rw [h]
    simp
  · intro s ch
    rw [leftRow_thread]
    have h : leftRow [4, 0, 4, 4] 0 false = ([8, 4, 0, 0], 8, true) := by decide
    rw [h]
    simp
  · intro s ch
    rw [leftRow_thread]
    have h : leftRow [2, 2, 2, 2] 0 false = ([4, 4, 0, 0], 8, true) := by decide
    rw [h]
    simp
  · intro s ch
    rw [leftRow_thread]
    have h : leftRow [2, 4, 4, 2] 0 false = ([2, 8, 2, 0], 8, true) := by decide
    rw [h]
    simp

end Nc2048

namespace Nc2048

/-- C4: on every well-formed board, `right()` is the horizontal-mirror
conjugate of `left()` (mirror each row, push left, mirror back), and
`up()`/`down()` are the transpose conjugates of `left()`/`right()`,
with identical score increase and identical changed flag. -/
theorem claim_C4_conjugates (t : Board) (h : Shaped t) (s : Int) :
    right t s =
      (mirrorB (left (mirrorB t) s).1, (left (mirrorB t) s).2.1, (left (mirrorB t) s).2.2)
    ∧ up t s =
      (transposeB (left (transposeB t) s).1, (left (transposeB t) s).2.1,
       (left (transposeB t) s).2.2)
    ∧ down t s =
      (transposeB (right (transposeB t) s).1, (right (transposeB t) s).2.1,
       (right (transposeB t) s).2.2) := by
  obtain ⟨a00, a01, a02, a03, a10, a11, a12, a13, a20, a21, a22, a23,
    a30, a31, a32, a33, rfl⟩ := board_destruct t h
  refine ⟨?_, ?_, ?_⟩
  · simp only [mirrorB, List.map_cons, List.map_nil, List.reverse_cons, List.reverse_nil,
      List.nil_append, List.cons_append, List.singleton_append]
    rw [right_eq_rows, left_eq_rows]
    rw [rightRow_mirror a00 a01 a02 a03, rightRow_mirror a10 a11 a12 a13,
      rightRow_mirror a20 a21 a22 a23, rightRow_mirror a30 a31 a32 a33]
    simp
  · simp only [transposeB, getCol, getCell, DIM, range_four, List.map_cons, List.map_nil,
      List.getD_cons_zero, List.getD_cons_succ]
    rw [up_eq_cols, left_eq_rows]
    simp
  · simp only [transposeB, getCol, getCell, DIM, range_four, List.map_cons, List.map_nil,
      List.getD_cons_zero, List.getD_cons_succ]
    rw [down_eq_cols, right_eq_rows]
    simp

end Nc2048

namespace Nc2048

theorem rightRow_changed_iff (a b c d : Int) :
    ((rightRow [a, b, c, d] 0 false).2.2 = false ↔
      (rightRow [a, b, c, d] 0 false).1 = [a, b, c, d])
    ∧ ((rightRow [a, b, c, d] 0 false).2.2 = false →
        (rightRow [a, b, c, d] 0 false).2.1 = 0) := by
  obtain ⟨h1, h2⟩ := leftRow_changed_iff d c b a
  simp only [rightRow_mirror]
  refine ⟨?_, fun hf => h2 hf⟩
  simp [h1, List.reverse_eq_iff]

theorem left_noop_iff (t : Board) (h : Shaped t) (s : Int) :
    ((left t s).2.2 = false ↔ (left t s).1 = t)
    ∧ ((left t s).2.2 = false → (left t s).2.1 = s) := by
  obtain ⟨a00, a01, a02, a03, a10, a11, a12, a13, a20, a21, a22, a23,
    a30, a31, a32, a33, rfl⟩ := board_destruct t h
  obtain ⟨e0a, e0b⟩ := leftRow_changed_iff a00 a01 a02 a03
  obtain ⟨e1a, e1b⟩ := leftRow_changed_iff a10 a11 a12 a13
  obtain ⟨e2a, e2b⟩ := leftRow_changed_iff a20 a21 a22 a23
  obtain ⟨e3a, e3b⟩ := leftRow_changed_iff a30 a31 a32 a33
  rw [left_eq_rows]
  constructor
  · simp only [Bool.or_eq_false_iff, List.cons.injEq, and_true]
    rw [e0a, e1a, e2a, e3a]
    simp only [and_assoc]
  · intro hf
    simp only [Bool.or_eq_false_iff] at hf
    obtain ⟨⟨⟨f0, f1⟩, f2⟩, f3⟩ := hf
    have := e0b f0
    have := e1b f1
    have := e2b f2
    have := e3b f3
    dsimp only
    omega

theorem right_noop_iff (t : Board) (h : Shaped t) (s : Int) :
    ((right t s).2.2 = false ↔ (right t s).1 = t)
    ∧ ((right t s).2.2 = false → (right t s).2.1 = s) := by
  obtain ⟨a00, a01, a02, a03, a10, a11, a12, a13, a20, a21, a22, a23,
    a30, a31, a32, a33, rfl⟩ := board_destruct t h
  obtain ⟨e0a, e0b⟩ := rightRow_changed_iff a00 a01 a02 a03
  obtain ⟨e1a, e1b⟩ := rightRow_changed_iff a10 a11 a12 a13
  obtain ⟨e2a, e2b⟩ := rightRow_changed_iff a20 a21 a22 a23
  obtain ⟨e3a, e3b⟩ := rightRow_changed_iff a30 a31 a32 a33
  rw [right_eq_rows]
  constructor
  · simp only [Bool.or_eq_false_iff, List.cons.injEq, and_true]
    rw [e0a, e1a, e2a, e3a]
    simp only [and_assoc]
  · intro hf
    simp only [Bool.or_eq_false_iff] at hf
    obtain ⟨⟨⟨f0, f1⟩, f2⟩, f3⟩ := hf
    have := e0b f0
    have := e1b f1
    have := e2b f2
    have := e3b f3
    dsimp only
    omega

end Nc2048

namespace Nc2048

set_option maxHeartbeats 1000000 in
theorem up_noop_iff (t : Board) (h : Shaped t) (s : Int) :
    ((up t s).2.2 = false ↔ (up t s).1 = t)
    ∧ ((up t s).2.2 = false → (up t s).2.1 = s) := by
  obtain ⟨a00, a01, a02, a03, a10, a11, a12, a13, a20, a21, a22, a23,
    a30, a31, a32, a33, rfl⟩ := board_destruct t h
  obtain ⟨u00, u10, u20, u30, hu0⟩ :=
    row_destruct (leftRow [a00, a10, a20, a30] 0 false).1 (by simp [leftRow_length, DIM])
  obtain ⟨u01, u11, u21, u31, hu1⟩ :=
    row_destruct (leftRow [a01, a11, a21, a31] 0 false).1 (by simp [leftRow_length, DIM])
  obtain ⟨u02, u12, u22, u32, hu2⟩ :=
    row_destruct (leftRow [a02, a12, a22, a32] 0 false).1 (by simp [leftRow_length, DIM])
  obtain ⟨u03, u13, u23, u33, hu3⟩ :=
    row_destruct (leftRow [a03, a13, a23, a33] 0 false).1 (by simp [leftRow_length, DIM])
  obtain ⟨e0a, e0b⟩ := leftRow_changed_iff a00 a10 a20 a30
  obtain ⟨e1a, e1b⟩ := leftRow_changed_iff a01 a11 a21 a31
  obtain ⟨e2a, e2b⟩ := leftRow_changed_iff a02 a12 a22 a32
  obtain ⟨e3a, e3b⟩ := leftRow_changed_iff a03 a13 a23 a33
  rw [up_eq_cols]
  constructor
  · simp only [Bool.or_eq_false_iff, List.cons.injEq, and_true]
    rw [e0a, e1a, e2a, e3a, hu0, hu1, hu2, hu3]
    simp only [List.getD_cons_zero, List.getD_cons_succ, List.cons.injEq, and_true]
    omega
  · intro hf
    simp only [Bool.or_eq_false_iff] at hf
    obtain ⟨⟨⟨f0, f1⟩, f2⟩, f3⟩ := hf
    have := e0b f0
    have := e1b f1
    have := e2b f2
    have := e3b f3
    dsimp only
    omega

set_option maxHeartbeats 1000000 in
theorem down_noop_iff (t : Board) (h : Shaped t) (s : Int) :
    ((down t s).2.2 = false ↔ (down t s).1 = t)
    ∧ ((down t s).2.2 = false → (down t s).2.1 = s) := by
  obtain ⟨a00, a01, a02, a03, a10, a11, a12, a13, a20, a21, a22, a23,
    a30, a31, a32, a33, rfl⟩ := board_destruct t h
  obtain ⟨u00, u10, u20, u30, hu0⟩ :=
    row_destruct (rightRow [a00, a10, a20, a30] 0 false).1 (by simp [rightRow_length, DIM])
  obtain ⟨u01, u11, u21, u31, hu1⟩ :=
    row_destruct (rightRow [a01, a11, a21, a31] 0 false).1 (by simp [rightRow_length, DIM])
  obtain ⟨u02, u12, u22, u32, hu2⟩ :=
    row_destruct (rightRow [a02, a12, a22, a32] 0 false).1 (by simp [rightRow_length, DIM])
  obtain ⟨u03, u13, u23, u33, hu3⟩ :=
    row_destruct (rightRow [a03, a13, a23, a33] 0 false).1 (by simp [rightRow_length, DIM])
  obtain ⟨e0a, e0b⟩ := rightRow_changed_iff a00 a10 a20 a30
  obtain ⟨e1a, e1b⟩ := rightRow_changed_iff a01 a11 a21 a31
  obtain ⟨e2a, e2b⟩ := rightRow_changed_iff a02 a12 a22 a32
  obtain ⟨e3a, e3b⟩ := rightRow_changed_iff a03 a13 a23 a33
  rw [down_eq_cols]
  constructor
  · simp only [Bool.or_eq_false_iff, List.cons.injEq, and_true]
    rw [e0a, e1a, e2a, e3a, hu0, hu1, hu2, hu3]
    simp only [List.getD_cons_zero, List.getD_cons_succ, List.cons.injEq, and_true]
    omega
  · intro hf
    simp only [Bool.or_eq_false_iff] at hf
    obtain ⟨⟨⟨f0, f1⟩, f2⟩, f3⟩ := hf
    have := e0b f0
    have := e1b f1
    have := e2b f2
    have := e3b f3
    dsimp only
    omega

/-- C3: each push function returns false exactly when it left every cell
of the (well-formed) board unchanged, and in that case the score is also
unchanged. -/
theorem claim_C3_changed_flag (t : Board) (h : Shaped t) (s : Int) :
    (((left t s).2.2 = false ↔ (left t s).1 = t)
      ∧ ((left t s).2.2 = false → (left t s).2.1 = s))
    ∧ (((right t s).2.2 = false ↔ (right t s).1 = t)
      ∧ ((right t s).2.2 = false → (right t s).2.1 = s))
    ∧ (((up t s).2.2 = false ↔ (up t s).1 = t)
      ∧ ((up t s).2.2 = false → (up t s).2.1 = s))
    ∧ (((down t s).2.2 = false ↔ (down t s).1 = t)
      ∧ ((down t s).2.2 = false → (down t s).2.1 = s)) :=
  ⟨left_noop_iff t h s, right_noop_iff t h s, up_noop_iff t h s, down_noop_iff t h s⟩

end Nc2048

namespace Nc2048

theorem exists_lt_four_iff (P : Nat → Prop) : (∃ i < 4, P i) ↔ P 0 ∨ P 1 ∨ P 2 ∨ P 3 := by
  constructor
  · rintro ⟨i, hi, hp⟩
    interval_cases i <;> tauto
  · rintro (h | h | h | h)
    exacts [⟨0, by omega, h⟩, ⟨1, by omega, h⟩, ⟨2, by omega, h⟩, ⟨3, by omega, h⟩]

theorem adjPair_lit (x y z w : Int) :
    adjPair [x, y, z, w] ↔ (x = y ∧ x ≠ 0) ∨ (y = z ∧ y ≠ 0) ∨ (z = w ∧ z ≠ 0) := by
  simp only [adjPair, DIM]
  constructor
  · rintro ⟨j, hj, h⟩
    interval_cases j <;> simp only [List.getD_cons_zero, List.getD_cons_succ] at h <;> tauto
  · rintro (h | h | h)
    · exact ⟨0, by omega, by simp only [List.getD_cons_zero, List.getD_cons_succ]; tauto⟩
    · exact ⟨1, by omega, by simp only [List.getD_cons_zero, List.getD_cons_succ]; tauto⟩
    · exact ⟨2, by omega, by simp only [List.getD_cons_zero, List.getD_cons_succ]; tauto⟩

set_option maxHeartbeats 1000000 in
theorem left_second_iff (t : Board) (h : Shaped t) (s s2 : Int) :
    (left (left t s).1 s2).2.2 = true ↔
      ∃ i < DIM, adjPair ((left t s).1.getD i []) := by
  obtain ⟨a00, a01, a02, a03, a10, a11, a12, a13, a20, a21, a22, a23,
    a30, a31, a32, a33, rfl⟩ := board_destruct t h
  rw [left_eq_rows]
  dsimp only
  obtain ⟨u0, u1, u2, u3, hu0⟩ :=
    row_destruct (leftRow [a00, a01, a02, a03] 0 false).1 (by simp [leftRow_length, DIM])
  obtain ⟨v0, v1, v2, v3, hv0⟩ :=
    row_destruct (leftRow [a10, a11, a12, a13] 0 false).1 (by simp [leftRow_length, DIM])
  obtain ⟨w0, w1, w2, w3, hw0⟩ :=
    row_destruct (leftRow [a20, a21, a22, a23] 0 false).1 (by simp [leftRow_length, DIM])
  obtain ⟨x0, x1, x2, x3, hx0⟩ :=
    row_destruct (leftRow [a30, a31, a32, a33] 0 false).1 (by simp [leftRow_length, DIM])
  obtain ⟨c0a, c0b, c0c⟩ := leftRow_compact a00 a01 a02 a03
  obtain ⟨c1a, c1b, c1c⟩ := leftRow_compact a10 a11 a12 a13
  obtain ⟨c2a, c2b, c2c⟩ := leftRow_compact a20 a21 a22 a23
  obtain ⟨c3a, c3b, c3c⟩ := leftRow_compact a30 a31 a32 a33
  rw [hu0] at c0a c0b c0c
  rw [hv0] at c1a c1b c1c
  rw [hw0] at c2a c2b c2c
  rw [hx0] at c3a c3b c3c
  simp only [List.getD_cons_zero, List.getD_cons_succ] at c0a c0b c0c c1a c1b c1c
  simp only [List.getD_cons_zero, List.getD_cons_succ] at c2a c2b c2c c3a c3b c3c
  rw [hu0, hv0, hw0, hx0, left_eq_rows]
  dsimp only
  simp only [DIM, exists_lt_four_iff, List.getD_cons_zero, List.getD_cons_succ, adjPair_lit,
    Bool.or_eq_true]
  rw [leftRow_adjacent u0 u1 u2 u3 c0a c0b c0c, leftRow_adjacent v0 v1 v2 v3 c1a c1b c1c,
    leftRow_adjacent w0 w1 w2 w3 c2a c2b c2c, leftRow_adjacent x0 x1 x2 x3 c3a c3b c3c]
  simp only [or_assoc]

end Nc2048

namespace Nc2048

theorem adj_flip (x0 x1 x2 x3 : Int) :
    adjPair [x3, x2, x1, x0] ↔
      (x0 = x1 ∧ x0 ≠ 0) ∨ (x1 = x2 ∧ x1 ≠ 0) ∨ (x2 = x3 ∧ x2 ≠ 0) := by
  rw [adjPair_lit]
  omega

set_option maxHeartbeats 1000000 in
theorem right_second_iff (t : Board) (h : Shaped t) (s s2 : Int) :
    (right (right t s).1 s2).2.2 = true ↔
      ∃ i < DIM, adjPair ((right t s).1.getD i []) := by
  obtain ⟨a00, a01, a02, a03, a10, a11, a12, a13, a20, a21, a22, a23,
    a30, a31, a32, a33, rfl⟩ := board_destruct t h
  rw [right_eq_rows]
  dsimp only
  simp only [rightRow_mirror]
  obtain ⟨u0, u1, u2, u3, hu0⟩ :=
    row_destruct (leftRow [a03, a02, a01, a00] 0 false).1 (by simp [leftRow_length, DIM])
  obtain ⟨v0, v1, v2, v3, hv0⟩ :=
    row_destruct (leftRow [a13, a12, a11, a10] 0 false).1 (by simp [leftRow_length, DIM])
  obtain ⟨w0, w1, w2, w3, hw0⟩ :=
    row_destruct (leftRow [a23, a22, a21, a20] 0 false).1 (by simp [leftRow_length, DIM])
  obtain ⟨x0, x1, x2, x3, hx0⟩ :=
    row_destruct (leftRow [a33, a32, a31, a30] 0 false).1 (by simp [leftRow_length, DIM])
  obtain ⟨c0a, c0b, c0c⟩ := leftRow_compact a03 a02 a01 a00
  obtain ⟨c1a, c1b, c1c⟩ := leftRow_compact a13 a12 a11 a10
  obtain ⟨c2a, c2b, c2c⟩ := leftRow_compact a23 a22 a21 a20
  obtain ⟨c3a, c3b, c3c⟩ := leftRow_compact a33 a32 a31 a30
  rw [hu0] at c0a c0b c0c
  rw [hv0] at c1a c1b c1c
  rw [hw0] at c2a c2b c2c
  rw [hx0] at c3a c3b c3c
  simp only [List.getD_cons_zero, List.getD_cons_succ] at c0a c0b c0c c1a c1b c1c
  simp only [List.getD_cons_zero, List.getD_cons_succ] at c2a c2b c2c c3a c3b c3c
  rw [hu0, hv0, hw0, hx0]
  simp only [List.reverse_cons, List.reverse_nil, List.nil_append, List.cons_append,
    List.singleton_append]
  rw [right_eq_rows]
  dsimp only
  simp only [DIM, exists_lt_four_iff, List.getD_cons_zero, List.getD_cons_succ, adj_flip,
    Bool.or_eq_true]
  rw [rightRow_mirror u3 u2 u1 u0, rightRow_mirror v3 v2 v1 v0, rightRow_mirror w3 w2 w1 w0,
    rightRow_mirror x3 x2 x1 x0]
  simp only [List.reverse_cons, List.reverse_nil, List.nil_append, List.cons_append,
    List.singleton_append]
  rw [leftRow_adjacent u0 u1 u2 u3 c0a c0b c0c, leftRow_adjacent v0 v1 v2 v3 c1a c1b c1c,
    leftRow_adjacent w0 w1 w2 w3 c2a c2b c2c, leftRow_adjacent x0 x1 x2 x3 c3a c3b c3c]
  simp only [or_assoc]

end Nc2048

namespace Nc2048

set_option maxHeartbeats 1000000 in
theorem up_second_iff (t : Board) (h : Shaped t) (s s2 : Int) :
    (up (up t s).1 s2).2.2 = true ↔
      ∃ j < DIM, adjPair (getCol (up t s).1 j) := by
  obtain ⟨a00, a01, a02, a03, a10, a11, a12, a13, a20, a21, a22, a23,
    a30, a31, a32, a33, rfl⟩ := board_destruct t h
  rw [up_eq_cols]
  dsimp only
  obtain ⟨u0, u1, u2, u3, hu0⟩ :=
    row_destruct (leftRow [a00, a10, a20, a30] 0 false).1 (by simp [leftRow_length, DIM])
  obtain ⟨v0, v1, v2, v3, hv0⟩ :=
    row_destruct (leftRow [a01, a11, a21, a31] 0 false).1 (by simp [leftRow_length, DIM])
  obtain ⟨w0, w1, w2, w3, hw0⟩ :=
    row_destruct (leftRow [a02, a12, a22, a32] 0 false).1 (by simp [leftRow_length, DIM])
  obtain ⟨x0, x1, x2, x3, hx0⟩ :=
    row_destruct (leftRow [a03, a13, a23, a33] 0 false).1 (by simp [leftRow_length, DIM])
  obtain ⟨c0a, c0b, c0c⟩ := leftRow_compact a00 a10 a20 a30
  obtain ⟨c1a, c1b, c1c⟩ := leftRow_compact a01 a11 a21 a31
  obtain ⟨c2a, c2b, c2c⟩ := leftRow_compact a02 a12 a22 a32
  obtain ⟨c3a, c3b, c3c⟩ := leftRow_compact a03 a13 a23 a33
  rw [hu0] at c0a c0b c0c
  rw [hv0] at c1a c1b c1c
  rw [hw0] at c2a c2b c2c
  rw [hx0] at c3a c3b c3c
  simp only [List.getD_cons_zero, List.getD_cons_succ] at c0a c0b c0c c1a c1b c1c
  simp only [List.getD_cons_zero, List.getD_cons_succ] at c2a c2b c2c c3a c3b c3c
  rw [hu0, hv0, hw0, hx0]
  simp only [List.getD_cons_zero, List.getD_cons_succ]
  rw [up_eq_cols]
  dsimp only
  simp only [DIM, exists_lt_four_iff, getCol, getCell, range_four, List.map_cons, List.map_nil,
    List.getD_cons_zero, List.getD_cons_succ, adjPair_lit, Bool.or_eq_true]
  rw [leftRow_adjacent u0 u1 u2 u3 c0a c0b c0c, leftRow_adjacent v0 v1 v2 v3 c1a c1b c1c,
    leftRow_adjacent w0 w1 w2 w3 c2a c2b c2c, leftRow_adjacent x0 x1 x2 x3 c3a c3b c3c]
  simp only [or_assoc]

set_option maxHeartbeats 1000000 in
theorem down_second_iff (t : Board) (h : Shaped t) (s s2 : Int) :
    (down (down t s).1 s2).2.2 = true ↔
      ∃ j < DIM, adjPair (getCol (down t s).1 j) := by
  obtain ⟨a00, a01, a02, a03, a10, a11, a12, a13, a20, a21, a22, a23,
    a30, a31, a32, a33, rfl⟩ := board_destruct t h
  rw [down_eq_cols]
  dsimp only
  simp only [rightRow_mirror]
  obtain ⟨u0, u1, u2, u3, hu0⟩ :=
    row_destruct (leftRow [a30, a20, a10, a00] 0 false).1 (by simp [leftRow_length, DIM])
  obtain ⟨v0, v1, v2, v3, hv0⟩ :=
    row_destruct (leftRow [a31, a21, a11, a01] 0 false).1 (by simp [leftRow_length, DIM])
  obtain ⟨w0, w1, w2, w3, hw0⟩ :=
    row_destruct (leftRow [a32, a22, a12, a02] 0 false).1 (by simp [leftRow_length, DIM])
  obtain ⟨x0, x1, x2, x3, hx0⟩ :=
    row_destruct (leftRow [a33, a23, a13, a03] 0 false).1 (by simp [leftRow_length, DIM])
  obtain ⟨c0a, c0b, c0c⟩ := leftRow_compact a30 a20 a10 a00
  obtain ⟨c1a, c1b, c1c⟩ := leftRow_compact a31 a21 a11 a01
  obtain ⟨c2a, c2b, c2c⟩ := leftRow_compact a32 a22 a12 a02
  obtain ⟨c3a, c3b, c3c⟩ := leftRow_compact a33 a23 a13 a03
  rw [hu0] at c0a c0b c0c
  rw [hv0] at c1a c1b c1c
  rw [hw0] at c2a c2b c2c
  rw [hx0] at c3a c3b c3c
  simp only [List.getD_cons_zero, List.getD_cons_succ] at c0a c0b c0c c1a c1b c1c
  simp only [List.getD_cons_zero, List.getD_cons_succ] at c2a c2b c2c c3a c3b c3c
  rw [hu0, hv0, hw0, hx0]
  simp only [List.reverse_cons, List.reverse_nil, List.nil_append, List.cons_append,
    List.singleton_append, List.getD_cons_zero, List.getD_cons_succ]
  rw [down_eq_cols]
  dsimp only
  simp only [DIM, exists_lt_four_iff, getCol, getCell, range_four, List.map_cons, List.map_nil,
    List.getD_cons_zero, List.getD_cons_succ, adj_flip, Bool.or_eq_true]
  rw [rightRow_mirror u3 u2 u1 u0, rightRow_mirror v3 v2 v1 v0, rightRow_mirror w3 w2 w1 w0,
    rightRow_mirror x3 x2 x1 x0]
  simp only [List.reverse_cons, List.reverse_nil, List.nil_append, List.cons_append,
    List.singleton_append]
  rw [leftRow_adjacent u0 u1 u2 u3 c0a c0b c0c, leftRow_adjacent v0 v1 v2 v3 c1a c1b c1c,
    leftRow_adjacent w0 w1 w2 w3 c2a c2b c2c, leftRow_adjacent x0 x1 x2 x3 c3a c3b c3c]
  simp only [or_assoc]

end Nc2048

namespace Nc2048

/-- C2 counterexample: on the board whose first row is `[2,2,2,2]`, the
first `left()` merges to `[4,4,0,0]` and returns true, and the second
consecutive `left()` (no spawn in between) merges again and returns
true, not false as the claim states. -/
theorem claim_C2_counterexample :
    (left [[2, 2, 2, 2], [0, 0, 0, 0], [0, 0, 0, 0], [0, 0, 0, 0]] 0).2.2 = true
    ∧ (left (left [[2, 2, 2, 2], [0, 0, 0, 0], [0, 0, 0, 0], [0, 0, 0, 0]] 0).1
        (left [[2, 2, 2, 2], [0, 0, 0, 0], [0, 0, 0, 0], [0, 0, 0, 0]] 0).2.1).2.2 = true := by
  constructor
  · decide
  · decide

/-- C2 amended: for every well-formed board, repeating the same push
with no spawn in between yields `changed=true` on the second call if and
only if the board after the first push still holds, in some line along
the push direction (row for left/right, column for up/down), two
adjacent equal non-zero tiles; in particular the second call returns
false when no such pair survives the first push. -/
theorem claim_C2_second_push (t : Board) (h : Shaped t) (s s2 : Int) :
    ((left (left t s).1 s2).2.2 = true ↔ ∃ i < DIM, adjPair ((left t s).1.getD i []))
    ∧ ((right (right t s).1 s2).2.2 = true ↔ ∃ i < DIM, adjPair ((right t s).1.getD i []))
    ∧ ((up (up t s).1 s2).2.2 = true ↔ ∃ j < DIM, adjPair (getCol (up t s).1 j))
    ∧ ((down (down t s).1 s2).2.2 = true ↔ ∃ j < DIM, adjPair (getCol (down t s).1 j)) :=
  ⟨left_second_iff t h s s2, right_second_iff t h s s2, up_second_iff t h s s2,
   down_second_iff t h s s2⟩

theorem claim_C2_second_push_witness :
    (left (left [[2, 2, 2, 2], [0, 0, 0, 0], [0, 0, 0, 0], [0, 0, 0, 0]] 0).1 0).2.2 = true :=
  (claim_C2_second_push [[2, 2, 2, 2], [0, 0, 0, 0], [0, 0, 0, 0], [0, 0, 0, 0]]
    (by decide) 0 0).1.mpr ⟨0, by decide, by decide⟩

theorem claim_C3_changed_flag_witness :
    (left [[2, 4, 2, 4], [4, 2, 4, 2], [2, 4, 2, 4], [4, 2, 4, 2]] 7).1 =
      [[2, 4, 2, 4], [4, 2, 4, 2], [2, 4, 2, 4], [4, 2, 4, 2]] :=
  ((claim_C3_changed_flag [[2, 4, 2, 4], [4, 2, 4, 2], [2, 4, 2, 4], [4, 2, 4, 2]]
    (by decide) 7).1.1).mp (by decide)

theorem claim_C4_conjugates_witness :
    right [[2, 2, 0, 0], [0, 4, 4, 0], [8, 0, 0, 8], [2, 4, 8, 16]] 3 =
      (mirrorB (left (mirrorB [[2, 2, 0, 0], [0, 4, 4, 0], [8, 0, 0, 8], [2, 4, 8, 16]]) 3).1,
       (left (mirrorB [[2, 2, 0, 0], [0, 4, 4, 0], [8, 0, 0, 8], [2, 4, 8, 16]]) 3).2.1,
       (left (mirrorB [[2, 2, 0, 0], [0, 4, 4, 0], [8, 0, 0, 8], [2, 4, 8, 16]]) 3).2.2) :=
  (claim_C4_conjugates [[2, 2, 0, 0], [0, 4, 4, 0], [8, 0, 0, 8], [2, 4, 8, 16]]
    (by decide) 3).1

end Nc2048

namespace Nc2048

theorem mem_cellIdx (p : Nat × Nat) : p ∈ cellIdx ↔ p.1 < DIM ∧ p.2 < DIM := by
  rcases p with ⟨i, j⟩
  simp [cellIdx, List.mem_flatMap, List.mem_map, List.mem_range]

/-- C9: `move_available()` returns false exactly when the board has no
zero cell and no two orthogonally adjacent cells hold equal non-zero
values, and it returns true on any board containing a zero.  It is
embedded as a pure function of the board: the C code only reads
`g.tiles` and never writes it or the score. -/
theorem claim_C9_move_available (t : Board) :
    (move_available t = false ↔
      ((∀ i < DIM, ∀ j < DIM, getCell t i j ≠ 0)
        ∧ ¬∃ i < DIM, ∃ j < DIM,
            ((i + 1 < DIM ∧ getCell t i j = getCell t (i + 1) j ∧ getCell t i j ≠ 0)
              ∨ (j + 1 < DIM ∧ getCell t i j = getCell t i (j + 1) ∧ getCell t i j ≠ 0))))
    ∧ ((∃ i < DIM, ∃ j < DIM, getCell t i j = 0) → move_available t = true) := by
  have hext : move_available t = false ↔ ∀ i < DIM, ∀ j < DIM,
      ¬(getCell t i j = 0
        ∨ (i < DIM - 1 ∧ getCell t i j = getCell t (i + 1) j)
        ∨ (j < DIM - 1 ∧ getCell t i j = getCell t i (j + 1))) := by
    simp only [move_available, List.any_eq_false, mem_cellIdx, Prod.forall, Bool.or_eq_true,
      Bool.and_eq_true, decide_eq_true_eq, not_or, and_imp, Bool.or_eq_false_iff,
      Bool.and_eq_false_iff, decide_eq_false_iff_not, Bool.not_eq_true]
    constructor
    · intro hh i hi j hj
      have := hh i j hi hj
      tauto
    · intro hh i j hi hj
      have := hh i hi j hj
      tauto
  constructor
  · rw [hext]
    constructor
    · intro hall
      constructor
      · intro i hi j hj
        have := hall i hi j hj
        tauto
      · rintro ⟨i, hi, j, hj, hpair⟩
        rcases hpair with ⟨hi1, heq, hne⟩ | ⟨hj1, heq, hne⟩
        · exact (hall i hi j hj) (Or.inr (Or.inl ⟨by omega, heq⟩))
        · exact (hall i hi j hj) (Or.inr (Or.inr ⟨by omega, heq⟩))
    · rintro ⟨hnz, hnp⟩ i hi j hj
      rintro (h0 | ⟨hi1, heq⟩ | ⟨hj1, heq⟩)
      · exact hnz i hi j hj h0
      · exact hnp ⟨i, hi, j, hj, Or.inl ⟨by omega, heq, hnz i hi j hj⟩⟩
      · exact hnp ⟨i, hi, j, hj, Or.inr ⟨by omega, heq, hnz i hi j hj⟩⟩
  · rintro ⟨i, hi, j, hj, h0⟩
    simp only [move_available, List.any_eq_true]
    exact ⟨(i, j), (mem_cellIdx (i, j)).mpr ⟨hi, hj⟩, by simp [h0]⟩

end Nc2048

namespace Nc2048

theorem getCell_setCell (t : Board) (hS : Shaped t) {i j : Nat} (hi : i < DIM) (hj : j < DIM)
    (v : Int) (i' j' : Nat) :
    getCell (setCell t i j v) i' j' = if i = i' ∧ j = j' then v else getCell t i' j' := by
  obtain ⟨hlen, hrows⟩ := hS
  have hit : i < t.length := by omega
  have hmem : t.getD i [] ∈ t := by
    rw [List.getD_eq_getElem?_getD, List.getElem?_eq_getElem hit]
    exact List.getElem_mem hit
  have hrowlen : (t.getD i []).length = DIM := hrows _ hmem
  unfold getCell setCell
  by_cases hii : i = i'
  · subst hii
    rw [List.getD_eq_getElem?_getD (t.set i _), List.getElem?_set_eq_of_lt _ hit]
    by_cases hjj : j = j'
    · subst hjj
      simp only [Option.getD_some, and_self, if_pos]
      rw [List.getD_eq_getElem?_getD, List.getElem?_set_eq_of_lt _ (by omega)]
      rfl
    · simp only [hjj, and_false, if_false, Option.getD_some]
      rw [List.getD_eq_getElem?_getD, List.getElem?_set_ne hjj,
        ← List.getD_eq_getElem?_getD]
  · rw [List.getD_eq_getElem?_getD (t.set i _), List.getElem?_set_ne hii,
      ← List.getD_eq_getElem?_getD]
    simp [hii]

theorem countP_zero_set (t : Board) (hS : Shaped t) {i j : Nat} (hi : i < DIM) (hj : j < DIM)
    {v : Int} (h0 : getCell t i j = 0) (hv : v ≠ 0) :
    ∀ idx : List (Nat × Nat), idx.Nodup → (i, j) ∈ idx →
      idx.countP (fun p => decide (getCell (setCell t i j v) p.1 p.2 = 0)) =
        idx.countP (fun p => decide (getCell t p.1 p.2 = 0)) - 1 := by
  intro idx
  induction idx with
  | nil => simp
  | cons q rest ih =>
    intro hnd hmem
    obtain ⟨hqnr, hndr⟩ := List.nodup_cons.mp hnd
    simp only [List.countP_cons]
    by_cases hq : q = (i, j)
    · subst hq
      have hnm : ((i, j) : Nat × Nat) ∉ rest := hqnr
      have hcong : rest.countP (fun p => decide (getCell (setCell t i j v) p.1 p.2 = 0)) =
          rest.countP (fun p => decide (getCell t p.1 p.2 = 0)) := by
        apply List.countP_congr
        intro p hp
        have hpne : ¬(i = p.1 ∧ j = p.2) := by
          rintro ⟨h1, h2⟩
          exact hnm (by rcases p with ⟨p1, p2⟩; simp_all)
        rw [getCell_setCell t ⟨hS.1, hS.2⟩ hi hj v p.1 p.2, if_neg hpne]
      rw [hcong]
      have hnew : getCell (setCell t i j v) i j = v := by
        rw [getCell_setCell t ⟨hS.1, hS.2⟩ hi hj v i j, if_pos ⟨rfl, rfl⟩]
      simp only [hnew, h0]
      simp [hv]
    · have hmr : ((i, j) : Nat × Nat) ∈ rest := by
        rcases List.mem_cons.mp hmem with h | h
        · exact absurd h.symm hq
        · exact h
      have hrec := ih hndr hmr
      have hqsame : getCell (setCell t i j v) q.1 q.2 = getCell t q.1 q.2 := by
        rw [getCell_setCell t ⟨hS.1, hS.2⟩ hi hj v q.1 q.2, if_neg]
        rintro ⟨h1, h2⟩
        exact hq (by rcases q with ⟨q1, q2⟩; simp_all)
      rw [hqsame, hrec]
      have hpos : 0 < rest.countP (fun p => decide (getCell t p.1 p.2 = 0)) := by
        rw [List.countP_pos]
        exact ⟨(i, j), hmr, by simp [h0]⟩
      split <;> omega

theorem place_loop_spec :
    ∀ (idx : List (Nat × Nat)) (t : Board) (zc n : Nat) (v : Int),
      zc ≤ n → n - zc < idx.countP (fun p => decide (getCell t p.1 p.2 = 0)) →
      ∃ i j, (i, j) ∈ idx ∧ getCell t i j = 0 ∧ place_loop t idx zc n v = setCell t i j v := by
  intro idx
  induction idx with
  | nil => intro t zc n v hle hlt; simp at hlt
  | cons q rest ih =>
    intro t zc n v hle hlt
    simp only [place_loop]
    rw [List.countP_cons] at hlt
    by_cases h0 : getCell t q.1 q.2 = 0
    · rw [if_pos h0]
      by_cases hz : zc = n
      · rw [if_pos hz]
        exact ⟨q.1, q.2, by simp, h0, by rfl⟩
      · rw [if_neg hz]
        have h1 : zc + 1 ≤ n := by omega
        have h2 : n - (zc + 1) < rest.countP (fun p => decide (getCell t p.1 p.2 = 0)) := by
          simp [h0] at hlt
          omega
        obtain ⟨i, j, hm, hz0, heq⟩ := ih t (zc + 1) n v h1 h2
        exact ⟨i, j, List.mem_cons_of_mem _ hm, hz0, heq⟩
    · rw [if_neg h0]
      have h2 : n - zc < rest.countP (fun p => decide (getCell t p.1 p.2 = 0)) := by
        simp [h0] at hlt
        omega
      obtain ⟨i, j, hm, hz0, heq⟩ := ih t zc n v hle h2
      exact ⟨i, j, List.mem_cons_of_mem _ hm, hz0, heq⟩

theorem place_loop_first :
    ∀ (idx : List (Nat × Nat)) (t : Board) (v : Int),
      (∃ p ∈ idx, getCell t p.1 p.2 = 0) →
      ∃ pre i j post, idx = pre ++ (i, j) :: post
        ∧ (∀ q ∈ pre, getCell t q.1 q.2 ≠ 0)
        ∧ getCell t i j = 0 ∧ place_loop t idx 0 0 v = setCell t i j v := by
  intro idx
  induction idx with
  | nil => intro t v h; simp at h
  | cons q rest ih =>
    intro t v h
    simp only [place_loop]
    by_cases h0 : getCell t q.1 q.2 = 0
    · rw [if_pos h0]
      refine ⟨[], q.1, q.2, rest, by simp, by simp, h0, ?_⟩
      simp
    · rw [if_neg h0]
      have h' : ∃ p ∈ rest, getCell t p.1 p.2 = 0 := by
        obtain ⟨p, hp, hp0⟩ := h
        rcases List.mem_cons.mp hp with rfl | hp'
        · exact absurd hp0 h0
        · exact ⟨p, hp', hp0⟩
      obtain ⟨pre, i, j, post, heq, hpre, hz0, hpl⟩ := ih t v h'
      refine ⟨q :: pre, i, j, post, by rw [heq]; rfl, ?_, hz0, hpl⟩
      intro r hr
      rcases List.mem_cons.mp hr with rfl | hr'
      · exact h0
      · exact hpre r hr'

end Nc2048

namespace Nc2048

theorem floor_mul_lt (d1 : ℚ) (zc : Nat) (h0 : 0 ≤ d1) (h1 : d1 < 1) (hz : 0 < zc) :
    (⌊d1 * (zc : ℚ)⌋).toNat < zc := by
  have hp : (0 : ℚ) < zc := by exact_mod_cast hz
  have h2 : d1 * (zc : ℚ) < zc := by
    calc d1 * (zc : ℚ) < 1 * zc := mul_lt_mul_of_pos_right h1 hp
    _ = zc := one_mul _
  have h3 : ⌊d1 * (zc : ℚ)⌋ < (zc : Int) := by
    rw [Int.floor_lt]
    exact_mod_cast h2
  omega

/-- C10: on a well-formed board with at least one empty cell,
`new_tile()` writes a single non-zero tile into some empty cell (so no
occupied cell is overwritten, every other cell keeps its value, and the
number of empty cells drops by exactly one); with `random_tiles` false
it writes the value 2 at the first empty cell in row-major order, and
with `random_tiles` true (any draws in `[0,1)`) it writes a 2 or a 4. -/
theorem claim_C10_new_tile (t : Board) (hS : Shaped t)
    (hz : ∃ i < DIM, ∃ j < DIM, getCell t i j = 0) (d1 d2 : ℚ)
    (hd1a : 0 ≤ d1) (hd1b : d1 < 1) :
    (∀ rt : Bool, ∃ i j, i < DIM ∧ j < DIM ∧ getCell t i j = 0
      ∧ new_tile t rt d1 d2 =
          setCell t i j (if rt then (if d2 < 9 / 10 then 2 else 4) else 2)
      ∧ zeros_count (new_tile t rt d1 d2) = zeros_count t - 1
      ∧ (∀ i' j', ¬(i' = i ∧ j' = j) →
          getCell (new_tile t rt d1 d2) i' j' = getCell t i' j'))
    ∧ (∃ pre i j post, cellIdx = pre ++ (i, j) :: post
        ∧ (∀ q ∈ pre, getCell t q.1 q.2 ≠ 0) ∧ getCell t i j = 0
        ∧ new_tile t false d1 d2 = setCell t i j 2)
    ∧ ((if d2 < 9 / 10 then (2 : Int) else 4) = 2 ∨
        (if d2 < 9 / 10 then (2 : Int) else 4) = 4) := by
  have hcnt : 0 < zeros_count t := by
    obtain ⟨i, hi, j, hj, h0⟩ := hz
    unfold zeros_count
    rw [List.countP_pos]
    exact ⟨(i, j), (mem_cellIdx (i, j)).mpr ⟨hi, hj⟩, by simp [h0]⟩
  have hnodup : cellIdx.Nodup := by decide
  refine ⟨?_, ?_, ?_⟩
  · intro rt
    cases rt with
    | false =>
      obtain ⟨i, j, hm, h0, heq⟩ :=
        place_loop_spec cellIdx t 0 0 2 (le_refl 0) (by simpa [zeros_count] using hcnt)
      have hb := (mem_cellIdx (i, j)).mp hm
      have hnt : new_tile t false d1 d2 = setCell t i j 2 := by
        simpa [new_tile] using heq
      refine ⟨i, j, hb.1, hb.2, h0, by simpa using hnt, ?_, ?_⟩
      · rw [hnt]
        exact countP_zero_set t hS hb.1 hb.2 h0 (by norm_num) cellIdx hnodup hm
      · intro i' j' hne
        rw [hnt, getCell_setCell t hS hb.1 hb.2 2 i' j', if_neg]
        rintro ⟨rfl, rfl⟩
        exact hne ⟨rfl, rfl⟩
    | true =>
      have hlt := floor_mul_lt d1 (zeros_count t) hd1a hd1b hcnt
      obtain ⟨i, j, hm, h0, heq⟩ :=
        place_loop_spec cellIdx t 0 ((⌊d1 * (zeros_count t : ℚ)⌋).toNat)
          (if d2 < 9 / 10 then 2 else 4) (Nat.zero_le _)
          (by simpa [zeros_count] using hlt)
      have hb := (mem_cellIdx (i, j)).mp hm
      have hnt : new_tile t true d1 d2 = setCell t i j (if d2 < 9 / 10 then 2 else 4) := by
        simpa [new_tile, zeros_count] using heq
      refine ⟨i, j, hb.1, hb.2, h0, by simpa using hnt, ?_, ?_⟩
      · rw [hnt]
        exact countP_zero_set t hS hb.1 hb.2 h0 (by split <;> norm_num) cellIdx hnodup hm
      · intro i' j' hne
        rw [hnt, getCell_setCell t hS hb.1 hb.2 _ i' j', if_neg]
        rintro ⟨rfl, rfl⟩
        exact hne ⟨rfl, rfl⟩
  · have hz' : ∃ p ∈ cellIdx, getCell t p.1 p.2 = 0 := by
      obtain ⟨i, hi, j, hj, h0⟩ := hz
      exact ⟨(i, j), (mem_cellIdx _).mpr ⟨hi, hj⟩, h0⟩
    obtain ⟨pre, i, j, post, h1, h2, h3, h4⟩ := place_loop_first cellIdx t 2 hz'
    exact ⟨pre, i, j, post, h1, h2, h3, by simpa [new_tile] using h4⟩
  · by_cases h : d2 < 9 / 10 <;> simp [h]

end Nc2048

namespace Nc2048

theorem recent_push (g : game) :
    recent (push_undo g).undo = (g.tiles, g.score) :: (recent g.undo).take 3 := by
  rcases g with ⟨gx, gy, gt, gs, ⟨ut, us, utop, usize⟩⟩
  fin_cases utop <;>
    simp [recent, push_undo, Function.update, UNDO_CAPACITY, Fin.ext_iff,
      show ((-1 : Fin 4)) = 3 by decide, show ((-2 : Fin 4)) = 2 by decide,
      show ((-3 : Fin 4)) = 1 by decide] <;>
  (repeat' constructor) <;> (intro h; exact absurd h (by decide))

theorem recent_pushAll (l : List (Board × Int)) :
    ∀ g : game, recent (pushAll g l).undo = (l.reverse ++ recent g.undo).take 4 := by
  have haux : ∀ (m : Nat) (x : Board × Int) (r : List (Board × Int)), m ≤ 4 →
      List.take m (x :: List.take 3 r) = List.take m (x :: r) := by
    intro m x r hm
    cases m with
    | zero => rfl
    | succ k =>
      have hmin : min k 3 = k := by omega
      rw [List.take_succ_cons, List.take_succ_cons, List.take_take, hmin]
  induction l with
  | nil =>
    intro g
    simp only [pushAll, List.foldl_nil, List.reverse_nil, List.nil_append]
    rw [recent]
    rfl
  | cons p l ih =>
    intro g
    simp only [pushAll, List.foldl_cons] at ih ⊢
    rw [ih (pushState g p)]
    have hrp : recent (pushState g p).undo = p :: (recent g.undo).take 3 := by
      rw [pushState, recent_push]
    rw [hrp]
    simp only [List.reverse_cons, List.append_assoc, List.singleton_append]
    rw [List.take_append_eq_append_take, List.take_append_eq_append_take]
    congr 1
    exact haux (4 - l.reverse.length) p (recent g.undo) (by omega)

theorem size_pushAll (l : List (Board × Int)) :
    ∀ g : game, g.undo.size ≤ UNDO_CAPACITY →
      (pushAll g l).undo.size = min (g.undo.size + l.length) UNDO_CAPACITY := by
  induction l with
  | nil =>
    intro g h
    simp only [pushAll, List.foldl_nil, List.length_nil, Nat.add_zero]
    simp only [UNDO_CAPACITY] at h ⊢
    omega
  | cons p l ih =>
    intro g h
    have hstep : (pushState g p).undo.size =
        if g.undo.size < UNDO_CAPACITY then g.undo.size + 1 else g.undo.size := rfl
    have hle : (pushState g p).undo.size ≤ UNDO_CAPACITY := by
      rw [hstep]
      simp only [UNDO_CAPACITY] at h ⊢
      split <;> omega
    have hrec := ih (pushState g p) hle
    simp only [pushAll, List.foldl_cons] at hrec ⊢
    rw [hrec, hstep]
    simp only [UNDO_CAPACITY, List.length_cons] at h ⊢
    split <;> omega

theorem pop_size_one (g : game) (h : g.undo.size = 1) : pop_undo g = (g, false) := by
  unfold pop_undo
  rw [if_pos (by omega)]

theorem pop_restore (g : game) (h : 2 ≤ g.undo.size) :
    (pop_undo g).2 = true
    ∧ (pop_undo g).1.tiles = g.undo.tiles (g.undo.top - 1)
    ∧ (pop_undo g).1.score = g.undo.score (g.undo.top - 1)
    ∧ (pop_undo g).1.undo.size = g.undo.size - 1
    ∧ (pop_undo g).1.undo.tiles = g.undo.tiles
    ∧ (pop_undo g).1.undo.score = g.undo.score := by
  rcases g with ⟨gx, gy, gt, gs, ⟨ut, us, utop, usize⟩⟩
  simp only [pop_undo]
  rw [if_neg (by simp only at h ⊢; omega)]
  fin_cases utop <;>
    simp [Fin.ext_iff, UNDO_CAPACITY,
      show ((-1 : Fin 4)) = 3 by decide, show ((-2 : Fin 4)) = 2 by decide,
      show ((-3 : Fin 4)) = 1 by decide]

end Nc2048

namespace Nc2048

/-- C6: the undo stack is a circular buffer of capacity
`UNDO_CAPACITY = 4`: `push_undo` is total (it always succeeds,
cyclically overwriting the oldest slot once full), after `K` or more
pushes the stack holds exactly the `K` most recently pushed snapshots
in most-recent-first order; `pop_undo` with `size = 1` returns false
leaving the game unchanged, and with `size = 2` succeeds, restoring the
tiles and score stored immediately before the current top, then fails
on a second consecutive call. -/
theorem claim_C6_undo_stack :
    (∀ (g : game) (l : List (Board × Int)), g.undo.size ≤ UNDO_CAPACITY →
      UNDO_CAPACITY ≤ l.length →
        recent (pushAll g l).undo = l.reverse.take UNDO_CAPACITY
        ∧ (pushAll g l).undo.size = UNDO_CAPACITY)
    ∧ (∀ g : game, g.undo.size = 1 → pop_undo g = (g, false))
    ∧ (∀ g : game, g.undo.size = 2 →
        (pop_undo g).2 = true
        ∧ (pop_undo g).1.tiles = g.undo.tiles (g.undo.top - 1)
        ∧ (pop_undo g).1.score = g.undo.score (g.undo.top - 1)
        ∧ pop_undo (pop_undo g).1 = ((pop_undo g).1, false)) := by
  refine ⟨?_, pop_size_one, ?_⟩
  · intro g l hs hl
    constructor
    · rw [recent_pushAll, List.take_append_eq_append_take]
      have hz : 4 - l.reverse.length = 0 := by
        simp only [UNDO_CAPACITY] at hl
        simp only [List.length_reverse]
        omega
      rw [hz]
      simp [UNDO_CAPACITY]
    · rw [size_pushAll l g hs]
      simp only [UNDO_CAPACITY] at hl ⊢
      omega
  · intro g h2
    obtain ⟨ha, hb, hc, hd, he, hf⟩ := pop_restore g (by omega)
    refine ⟨ha, hb, hc, ?_⟩
    apply pop_size_one
    rw [hd, h2]

theorem claim_C6_undo_stack_witness :
    recent (pushAll g_base pushes5).undo = pushes5.reverse.take UNDO_CAPACITY
    ∧ (pushAll g_base pushes5).undo.size = UNDO_CAPACITY
    ∧ pop_undo { g_base with undo := { g_base.undo with size := 1 } } =
        ({ g_base with undo := { g_base.undo with size := 1 } }, false) :=
  ⟨(claim_C6_undo_stack.1 g_base pushes5 (by decide) (by decide)).1,
   (claim_C6_undo_stack.1 g_base pushes5 (by decide) (by decide)).2,
   claim_C6_undo_stack.2.1 _ (by decide)⟩

/-- C7: saving and then loading both succeed and the loaded state
equals the saved state, whatever the live state was at load time. -/
theorem claim_C7_roundtrip (g h : game) : load_game (save_game g) h = (g, true) := rfl

/-- C5 counterexample: a successful `load_game()` does not leave the
live history unaffected: loading the save of `g_base` over the live
game `g_alt` replaces `g_alt`'s history with `g_base`'s. -/
theorem claim_C5_counterexample :
    (load_game (save_game g_base) g_alt).2 = true
    ∧ (load_game (save_game g_base) g_alt).1.undo ≠ g_alt.undo := by
  constructor
  · rfl
  · decide

/-- C5 amended: the persisted record is the entire `struct game` —
board, score, display coordinates and the undo history — because
`save_game()` writes `sizeof g` bytes of the whole global; a successful
`load_game()` therefore replaces the live history with the history
stored in the file (it equals the live one only if they already
agreed). -/
theorem claim_C5_record (g h : game) :
    save_game g = SaveFile.full g
    ∧ (load_game (save_game g) h).1.undo = g.undo
    ∧ ((load_game (save_game g) h).1.undo = h.undo ↔ g.undo = h.undo) :=
  ⟨rfl, rfl, Iff.rfl⟩

/-- C8: whenever `load_game()` fails — the save file cannot be opened
(`absent`) or the read yields less than a full record (`short`) — it
returns false and leaves the entire live game state (board, score and
history stack) unchanged. -/
theorem claim_C8_load_failure :
    (∀ g : game, load_game SaveFile.absent g = (g, false))
    ∧ (∀ g : game, load_game SaveFile.short g = (g, false))
    ∧ (∀ (f : SaveFile) (g : game), (load_game f g).2 = false → (load_game f g).1 = g) := by
  refine ⟨fun g => rfl, fun g => rfl, ?_⟩
  intro f g hf
  cases f with
  | absent => rfl
  | short => rfl
  | full temp => simp [load_game] at hf

theorem claim_C8_load_failure_witness : (load_game SaveFile.short g_base).1 = g_base :=
  claim_C8_load_failure.2.2 SaveFile.short g_base (by decide)

end Nc2048

namespace Nc2048

theorem claim_C10_new_tile_witness :
    ∃ i j, i < DIM ∧ j < DIM
      ∧ getCell [[2, 0, 0, 0], [0, 0, 0, 0], [0, 0, 0, 0], [0, 0, 0, 0]] i j = 0
      ∧ new_tile [[2, 0, 0, 0], [0, 0, 0, 0], [0, 0, 0, 0], [0, 0, 0, 0]] false
          (1 / 2) (1 / 2) =
        setCell [[2, 0, 0, 0], [0, 0, 0, 0], [0, 0, 0, 0], [0, 0, 0, 0]] i j
          (if false then (if (1 : ℚ) / 2 < 9 / 10 then 2 else 4) else 2)
      ∧ zeros_count (new_tile [[2, 0, 0, 0], [0, 0, 0, 0], [0, 0, 0, 0], [0, 0, 0, 0]] false
          (1 / 2) (1 / 2)) =
        zeros_count [[2, 0, 0, 0], [0, 0, 0, 0], [0, 0, 0, 0], [0, 0, 0, 0]] - 1
      ∧ (∀ i' j', ¬(i' = i ∧ j' = j) →
          getCell (new_tile [[2, 0, 0, 0], [0, 0, 0, 0], [0, 0, 0, 0], [0, 0, 0, 0]] false
            (1 / 2) (1 / 2)) i' j' =
          getCell [[2, 0, 0, 0], [0, 0, 0, 0], [0, 0, 0, 0], [0, 0, 0, 0]] i' j') :=
  (claim_C10_new_tile [[2, 0, 0, 0], [0, 0, 0, 0], [0, 0, 0, 0], [0, 0, 0, 0]] (by decide)
    (by decide) (1 / 2) (1 / 2) (by norm_num) (by norm_num)).1 false

end Nc2048
